/-
Verification of the chainequity-solana unified-ledger core against its
natural-language specification.

The Python source under `backend/app` is shallowly embedded:

* Python `int` is `ℤ`;
* Python `float` (IEEE binary64) is `PyFloat`, an exact mantissa/exponent
  pair `m * 2^e`, with round-to-nearest-even at 53 significant bits and an
  unbounded exponent range (overflow/subnormal thresholds are never reached
  by any value considered here); all float-producing operations of the
  source (`int / int` true division, `int * float`, `float * float`,
  `int(float)` truncation) are modelled exactly;
* Python `dict` is an association list with first-occurrence lookup and
  in-place update (`dget` / `dset` / `dmodify`), Python `set` a list with
  add-if-absent / remove;
* `None`-able columns are `Option`; Python truthiness of a string/int/dict
  field is modelled by `strTruthy` / `intTruthy` / matching on `Option`
  (an absent or empty `data` dict is `none`);
* the SQL query of `reconstruct_at_slot` (filter by token and slot, order
  by `(slot, id)`) is modelled by filtering an in-memory list of rows; the
  `ORDER BY` clause becomes a sortedness hypothesis on that list.
-/
import Mathlib

/-! # Binary64 model -/

/-- Round-to-nearest-even of the integer quotient `a / b`, `b > 0`. -/
def rne2 (a b : ℤ) : ℤ :=
  let q := Int.fdiv a b
  let r := a - q * b
  if 2 * r < b then q
  else if b < 2 * r then q + 1
  else if q % 2 = 0 then q else q + 1

/-- Scaling loop locating the binade of `p/q` for `p ≥ q > 0`: returns
`e` with `q * 2^e ≤ p < q * 2^(e+1)` (fuel-bounded; the fuel covers every
value arising in this development). -/
def flExpUp (p : ℤ) : ℕ → ℤ → ℤ → ℤ
  | 0, _, e => e
  | fuel + 1, q, e => if p < 2 * q then e else flExpUp p fuel (2 * q) (e + 1)

/-- Scaling loop locating the binade of `p/q` for `0 < p < q`: returns the
(negative) exponent `e` with `2^e ≤ p/q < 2^(e+1)`. -/
def flExpDown (q : ℤ) : ℕ → ℤ → ℤ → ℤ
  | 0, _, e => e
  | fuel + 1, p, e => if q ≤ 2 * p then e - 1 else flExpDown q fuel (2 * p) (e - 1)

/-- A Python `float` (IEEE binary64) value `m * 2^e`, kept canonical:
either `m = 0 ∧ e = 0`, or `2^52 ≤ |m| < 2^53`. -/
structure PyFloat where
  m : ℤ
  e : ℤ
deriving DecidableEq, Repr

/-- ZeroFloat, the value `0.0`. -/
def PyFloat.zero : PyFloat := ⟨0, 0⟩

/-- Correctly rounded binary64 of the rational `p / q` for `p, q > 0`. -/
def flmkPos (p q : ℤ) : PyFloat :=
  let e : ℤ := if q ≤ p then flExpUp p 4400 q 0 else flExpDown q 4400 p 0
  let m : ℤ :=
    if e ≤ 52 then rne2 (p * 2 ^ (52 - e).toNat) q
    else rne2 p (q * 2 ^ (e - 52).toNat)
  if m = 2 ^ 53 then ⟨2 ^ 52, e - 51⟩ else ⟨m, e - 52⟩

/-- Correctly rounded binary64 of the rational `p / q` (`q ≠ 0`); models a
Python `int / int` true division and, with `q = 1`, the implicit
`int → float` conversion. -/
def flmk (p q : ℤ) : PyFloat :=
  let pn := if q < 0 then -p else p
  let qn := if q < 0 then -q else q
  if pn = 0 then PyFloat.zero
  else if pn < 0 then
    let f := flmkPos (-pn) qn; ⟨-f.m, f.e⟩
  else flmkPos pn qn

/-- Python float of an integer (the implicit conversion applied when an
`int` meets a `float`). -/
def fofInt (n : ℤ) : PyFloat := flmk n 1

/-- Python float multiplication (correctly rounded product). -/
def fmul (x y : PyFloat) : PyFloat :=
  let m := x.m * y.m
  let e := x.e + y.e
  if e ≥ 0 then flmk (m * 2 ^ e.toNat) 1 else flmk m (2 ^ (-e).toNat)

/-- Integer division truncated toward zero (`b > 0`). -/
def itrunc (a b : ℤ) : ℤ := if 0 ≤ a then Int.fdiv a b else -(Int.fdiv (-a) b)

/-- Python `int(x)` on a float: truncation toward zero. -/
def ftruncToInt (x : PyFloat) : ℤ :=
  if 0 ≤ x.e then x.m * 2 ^ x.e.toNat else itrunc x.m (2 ^ (-x.e).toNat)

/-- Python `int(n * f)` for an `int` `n` and a `float` `f`. -/
def pyIntMulFloat (n : ℤ) (f : PyFloat) : ℤ := ftruncToInt (fmul (fofInt n) f)

/-- Python `int(a * b / c)` for `int`s `a b c` (`a * b` is exact, the
division produces a correctly rounded float, `int` truncates). -/
def pyIntMulDiv (a b c : ℤ) : ℤ := ftruncToInt (flmk (a * b) c)

/-! # Python field helpers -/

/-- Python `x or d` for an optional integer field (both `None` and `0` are
falsy). -/
def pyOrInt (o : Option ℤ) (d : ℤ) : ℤ :=
  match o with
  | some n => if n = 0 then d else n
  | none => d

/-- Python `x or d` for an optional float field (both `None` and `0.0` are
falsy). -/
def pyOrFloat (o : Option PyFloat) (d : PyFloat) : PyFloat :=
  match o with
  | some f => if f.m = 0 then d else f
  | none => d

/-- Truthiness of an optional string column (`None` and `""` are falsy). -/
def strTruthy (o : Option String) : Prop :=
  match o with
  | some s => s ≠ ""
  | none => False

instance (o : Option String) : Decidable (strTruthy o) := by
  unfold strTruthy; cases o <;> infer_instance

/-- Truthiness of an optional integer column (`None` and `0` are falsy). -/
def intTruthy (o : Option ℤ) : Prop :=
  match o with
  | some n => n ≠ 0
  | none => False

instance (o : Option ℤ) : Decidable (intTruthy o) := by
  unfold intTruthy; cases o <;> infer_instance

/-! # Python dict / set model -/

/-- Dict lookup with default: Python `d.get(k, dflt)` (first occurrence). -/
def dget {α β : Type} [DecidableEq α] (d : List (α × β)) (k : α) (dflt : β) : β :=
  match d with
  | [] => dflt
  | (k', v) :: rest => if k' = k then v else dget rest k dflt

/-- Dict assignment: Python `d[k] = v` (replace the first binding in place,
else append). -/
def dset {α β : Type} [DecidableEq α] (d : List (α × β)) (k : α) (v : β) : List (α × β) :=
  match d with
  | [] => [(k, v)]
  | (k', v') :: rest => if k' = k then (k, v) :: rest else (k', v') :: dset rest k v

/-- Dict membership: Python `k in d`. -/
def dmem {α β : Type} [DecidableEq α] (d : List (α × β)) (k : α) : Prop :=
  match d with
  | [] => False
  | (k', _) :: rest => k' = k ∨ dmem rest k

instance {α β : Type} [DecidableEq α] (d : List (α × β)) (k : α) : Decidable (dmem d k) := by
  induction d with
  | nil => exact .isFalse (by simp [dmem])
  | cons h t ih => unfold dmem; exact @instDecidableOr _ _ _ ih

/-- In-place update of the value stored under `k`: Python
`d[k].field += ...` on a present key. -/
def dmodify {α β : Type} [DecidableEq α] (d : List (α × β)) (k : α) (f : β → β) :
    List (α × β) :=
  match d with
  | [] => []
  | (k', v) :: rest => if k' = k then (k', f v) :: rest else (k', v) :: dmodify rest k f

/-- Set insertion: Python `s.add(x)`. -/
def sadd (s : List String) (x : String) : List String :=
  if x ∈ s then s else s ++ [x]

/-- Set removal: Python `s.discard(x)`. -/
def sdiscard (s : List String) (x : String) : List String :=
  s.filter (fun y => y ≠ x)

/-! # Unified transaction model (`app/models/unified_transaction.py`,
`app/services/transaction_service.py`) -/

/-- Transaction types (`TransactionType` enum). -/
inductive TransactionType where
  | APPROVAL | REVOCATION
  | MINT | TRANSFER | BURN
  | VESTING_SCHEDULE_CREATE | VESTING_RELEASE | VESTING_TERMINATE
  | SHARE_GRANT
  | PROPOSAL_CREATE | VOTE | PROPOSAL_EXECUTE
  | DIVIDEND_ROUND_CREATE | DIVIDEND_PAYMENT
  | STOCK_SPLIT | SYMBOL_CHANGE | PAUSE
  | FUNDING_ROUND_CREATE | FUNDING_ROUND_CLOSE | INVESTMENT
  | CONVERTIBLE_CREATE | CONVERTIBLE_CONVERT | VALUATION_UPDATE
deriving DecidableEq, Repr

/-- The kind-specific JSON `data` payload; only the keys read by
`_apply_transaction` are modelled. An absent or empty dict is represented
as `none` at the `UnifiedTransaction.data` field (both are falsy). -/
structure TxData where
  numerator : Option ℤ := none
  denominator : Option ℤ := none
  paused : Option Bool := none
  start_time : Option String := none
  duration_seconds : Option ℤ := none
  cliff_seconds : Option ℤ := none
  vesting_type : Option String := none
deriving DecidableEq, Repr

/-- A row of the `unified_transactions` table, restricted to the columns
`_apply_transaction` and the reconstruction queries read. -/
structure UnifiedTransaction where
  id : ℤ
  token_id : ℤ
  slot : ℤ
  tx_type : TransactionType
  wallet : Option String := none
  wallet_to : Option String := none
  amount : Option ℤ := none
  amount_secondary : Option ℤ := none
  share_class_id : Option ℤ := none
  priority : Option ℤ := none
  preference_multiple : Option PyFloat := none
  price_per_share : Option ℤ := none
  reference_id : Option ℤ := none
  data : Option TxData := none
deriving DecidableEq, Repr

/-- State of a share position at a point in time (`PositionState`). -/
structure PositionState where
  wallet : String
  share_class_id : ℤ
  shares : ℤ := 0
  cost_basis : ℤ := 0
  priority : ℤ := 99
  preference_multiple : PyFloat := fofInt 1
deriving DecidableEq, Repr

/-- State of a vesting schedule at a point in time (`VestingState`). -/
structure VestingState where
  schedule_id : ℤ
  beneficiary : String
  total_amount : ℤ
  released_amount : ℤ := 0
  share_class_id : Option ℤ := none
  priority : ℤ := 99
  preference_multiple : PyFloat := fofInt 1
  start_time : Option String := none
  duration_seconds : Option ℤ := none
  cliff_seconds : Option ℤ := none
  vesting_type : Option String := none
  is_terminated : Bool := false
deriving DecidableEq, Repr

/-- Complete token state at a point in time (`TokenState`). -/
structure TokenState where
  slot : ℤ
  approved_wallets : List String := []
  balances : List (String × ℤ) := []
  positions : List ((String × Option ℤ) × PositionState) := []
  vesting_schedules : List (ℤ × VestingState) := []
  is_paused : Bool := false
  total_supply : ℤ := 0
deriving DecidableEq, Repr

/-- The empty state `TokenState(slot=target_slot)`. -/
def emptyState (slot : ℤ) : TokenState := { slot := slot }

/-- The shared position/balance/supply update of the `MINT | SHARE_GRANT`,
`CONVERTIBLE_CONVERT` and `INVESTMENT` cases of `_apply_transaction` (the
source repeats this block verbatim in each of those three cases): the
position's shares grow by `amount`, its cost basis by
`amount_secondary or 0`, and balance and supply by `amount`; only entered
when `tx.wallet` and `tx.amount` are truthy. -/
def addSharesPosition (s : TokenState) (tx : UnifiedTransaction) : TokenState :=
  let w := tx.wallet.getD ""
  let a := tx.amount.getD 0
  let key := (w, tx.share_class_id)
  let positions0 :=
    if dmem s.positions key then s.positions
    else dset s.positions key
      { wallet := w,
        share_class_id := pyOrInt tx.share_class_id 0,
        shares := 0,
        cost_basis := 0,
        priority := pyOrInt tx.priority 99,
        preference_multiple := pyOrFloat tx.preference_multiple (fofInt 1) }
  let positions1 := dmodify positions0 key (fun p =>
    { p with shares := p.shares + a,
             cost_basis := p.cost_basis + pyOrInt tx.amount_secondary 0 })
  { s with positions := positions1,
           balances := dset s.balances w (dget s.balances w 0 + a),
           total_supply := s.total_supply + a }

/-- The position/balance/supply update of the `VESTING_RELEASE` case of
`_apply_transaction`. It differs from the other share-adding cases in one
way: the source's release block increments only the position's `shares`
(plus balance and supply) and never touches `cost_basis`. -/
def addSharesRelease (s : TokenState) (tx : UnifiedTransaction) : TokenState :=
  let w := tx.wallet.getD ""
  let a := tx.amount.getD 0
  let key := (w, tx.share_class_id)
  let positions0 :=
    if dmem s.positions key then s.positions
    else dset s.positions key
      { wallet := w,
        share_class_id := pyOrInt tx.share_class_id 0,
        shares := 0,
        cost_basis := 0,
        priority := pyOrInt tx.priority 99,
        preference_multiple := pyOrFloat tx.preference_multiple (fofInt 1) }
  let positions1 := dmodify positions0 key (fun p =>
    { p with shares := p.shares + a })
  { s with positions := positions1,
           balances := dset s.balances w (dget s.balances w 0 + a),
           total_supply := s.total_supply + a }

/-- Stock-split application: every balance, every position's shares, every
vesting schedule's total/released amount, and the total supply are each
replaced by `int(old * ratio)` where `ratio` is the binary64 quotient
`numerator / denominator`. -/
def applySplit (s : TokenState) (numerator denominator : ℤ) : TokenState :=
  let ratio := flmk numerator denominator
  { s with
    balances := s.balances.map (fun kv => (kv.1, pyIntMulFloat kv.2 ratio)),
    positions := s.positions.map (fun kv =>
      (kv.1, { kv.2 with shares := pyIntMulFloat kv.2.shares ratio })),
    vesting_schedules := s.vesting_schedules.map (fun kv =>
      (kv.1, { kv.2 with total_amount := pyIntMulFloat kv.2.total_amount ratio,
                         released_amount := pyIntMulFloat kv.2.released_amount ratio })),
    total_supply := pyIntMulFloat s.total_supply ratio }

/-- Apply a single transaction to the state
(`TransactionService._apply_transaction`). The Python method mutates
`state` in place; here it returns the new state. -/
def _apply_transaction (s : TokenState) (tx : UnifiedTransaction) : TokenState :=
  match tx.tx_type with
  | .APPROVAL =>
      if strTruthy tx.wallet then
        { s with approved_wallets := sadd s.approved_wallets (tx.wallet.getD "") }
      else s
  | .REVOCATION =>
      if strTruthy tx.wallet then
        { s with approved_wallets := sdiscard s.approved_wallets (tx.wallet.getD "") }
      else s
  | .MINT | .SHARE_GRANT =>
      if strTruthy tx.wallet ∧ intTruthy tx.amount then addSharesPosition s tx else s
  | .TRANSFER =>
      if strTruthy tx.wallet ∧ strTruthy tx.wallet_to ∧ intTruthy tx.amount then
        let w := tx.wallet.getD ""
        let wt := tx.wallet_to.getD ""
        let a := tx.amount.getD 0
        let balances1 := dset s.balances w (dget s.balances w 0 - a)
        let balances2 := dset balances1 wt (dget balances1 wt 0 + a)
        { s with balances := balances2 }
      else s
  | .BURN =>
      if strTruthy tx.wallet ∧ intTruthy tx.amount then
        let w := tx.wallet.getD ""
        let a := tx.amount.getD 0
        { s with balances := dset s.balances w (dget s.balances w 0 - a),
                 total_supply := s.total_supply - a }
      else s
  | .VESTING_SCHEDULE_CREATE =>
      if intTruthy tx.reference_id ∧ strTruthy tx.wallet then
        let d := tx.data.getD {}
        let rid := tx.reference_id.getD 0
        let vs : VestingState :=
          { schedule_id := rid,
            beneficiary := tx.wallet.getD "",
            total_amount := tx.amount.getD 0,
            released_amount := 0,
            share_class_id := tx.share_class_id,
            priority := pyOrInt tx.priority 99,
            preference_multiple := pyOrFloat tx.preference_multiple (fofInt 1),
            start_time := d.start_time,
            duration_seconds := d.duration_seconds,
            cliff_seconds := d.cliff_seconds,
            vesting_type := d.vesting_type }
        { s with vesting_schedules := dset s.vesting_schedules rid vs }
      else s
  | .VESTING_RELEASE =>
      if strTruthy tx.wallet ∧ intTruthy tx.amount then
        let s1 := addSharesRelease s tx
        if intTruthy tx.reference_id ∧ dmem s1.vesting_schedules (tx.reference_id.getD 0) then
          let upd := fun (vs : VestingState) =>
            { vs with released_amount := vs.released_amount + tx.amount.getD 0 }
          { s1 with vesting_schedules := dmodify s1.vesting_schedules (tx.reference_id.getD 0) upd }
        else s1
      else s
  | .VESTING_TERMINATE =>
      if intTruthy tx.reference_id ∧ dmem s.vesting_schedules (tx.reference_id.getD 0) then
        let upd := fun (vs : VestingState) => { vs with is_terminated := true }
        { s with vesting_schedules := dmodify s.vesting_schedules (tx.reference_id.getD 0) upd }
      else s
  | .STOCK_SPLIT =>
      match tx.data with
      | some d =>
          let numerator := d.numerator.getD 1
          let denominator := d.denominator.getD 1
          if 0 < denominator then applySplit s numerator denominator else s
      | none => s
  | .PAUSE =>
      match tx.data with
      | some d => { s with is_paused := d.paused.getD false }
      | none => s
  | .CONVERTIBLE_CONVERT =>
      if strTruthy tx.wallet ∧ intTruthy tx.amount then addSharesPosition s tx else s
  | .INVESTMENT =>
      if strTruthy tx.wallet ∧ intTruthy tx.amount then addSharesPosition s tx else s
  | _ => s

/-- Reconstruct complete token state at a slot
(`TransactionService.reconstruct_at_slot`): filter the transaction table to
this token and `slot <= target_slot` and fold from the empty state.
`ledger` stands for the table contents; the SQL `ORDER BY slot, id` is
expressed as a sortedness hypothesis where a theorem needs it. The source
never consults a snapshot here: it always replays from empty. -/
def reconstruct_at_slot (ledger : List UnifiedTransaction) (token_id target_slot : ℤ) :
    TokenState :=
  let txs := ledger.filter (fun tx =>
    decide (tx.token_id = token_id) && decide (tx.slot ≤ target_slot))
  txs.foldl _apply_transaction (emptyState target_slot)

/-- Modelled from the spec: snapshot-resumed replay. The repository stores
snapshots (`HistoryService.create_snapshot` / `get_snapshot_at_slot`
select the most recent snapshot with `slot <= target`) but
`reconstruct_at_slot` never resumes from one, so the spec's §4.2
resume-from-snapshot algorithm has no counterpart under `src/`; it is
modelled here from the spec's words: the stored snapshot for `snap_slot`
is the (re-derivable) reconstructed state at `snap_slot`, and only the
entries in `(snap_slot, target_slot]` are folded on top of it (the
result's `slot` field is the target). -/
def reconstruct_from_snapshot (ledger : List UnifiedTransaction)
    (token_id snap_slot target_slot : ℤ) : TokenState :=
  let snap := reconstruct_at_slot ledger token_id snap_slot
  let txs := ledger.filter (fun tx =>
    decide (tx.token_id = token_id) && decide (snap_slot < tx.slot) &&
      decide (tx.slot ≤ target_slot))
  txs.foldl _apply_transaction ({ snap with slot := target_slot })

/-! # Waterfall calculator (`app/services/waterfall.py`) -/

/-- A holder's position for waterfall calculation (`WaterfallPosition`). -/
structure WaterfallPosition where
  wallet : String
  share_class_name : String
  priority : ℤ
  shares : ℤ
  cost_basis : ℤ
  preference_multiple : PyFloat
deriving DecidableEq, Repr

/-- Liquidation preference amount: Python
`int(self.cost_basis * self.preference_multiple)` (an `int * float`
binary64 product, truncated). -/
def WaterfallPosition.preference_amount (p : WaterfallPosition) : ℤ :=
  pyIntMulFloat p.cost_basis p.preference_multiple

/-- Payout result for a single holder (`WaterfallPayout`). -/
structure WaterfallPayout where
  wallet : String
  share_class_name : String
  priority : ℤ
  shares : ℤ
  cost_basis : ℤ
  preference_amount : ℤ
  preference_multiple : PyFloat
  payout : ℤ
  payout_source : String
deriving DecidableEq, Repr

/-- Results for a single priority tier (`WaterfallTier`). -/
structure WaterfallTier where
  priority : ℤ
  total_preference : ℤ
  amount_available : ℤ
  amount_distributed : ℤ
  fully_satisfied : Bool
  payouts : List WaterfallPayout
deriving DecidableEq, Repr

/-- Complete waterfall calculation result (`WaterfallResult`). -/
structure WaterfallResult where
  exit_amount : ℤ
  total_shares : ℤ
  tiers : List WaterfallTier
  remaining_amount : ℤ
deriving DecidableEq, Repr

/-- The payout record the source builds for `pos` with a given payout and
source tag (all other fields copied from the position). -/
def mkPayout (pos : WaterfallPosition) (payout : ℤ) (source : String) : WaterfallPayout :=
  { wallet := pos.wallet, share_class_name := pos.share_class_name,
    priority := pos.priority, shares := pos.shares, cost_basis := pos.cost_basis,
    preference_amount := pos.preference_amount,
    preference_multiple := pos.preference_multiple,
    payout := payout, payout_source := source }

/-- Sum of shares over all positions. -/
def totalShares (positions : List WaterfallPosition) : ℤ :=
  (positions.map (·.shares)).sum

/-- Sum of preference amounts over all positions
(`total_all_preferences`). -/
def totalPreferences (positions : List WaterfallPosition) : ℤ :=
  (positions.map (·.preference_amount)).sum

/-- The members of one priority tier, in input order (the source groups
positions into `tiers_map`, a `defaultdict` that appends in input
order). -/
def tierPositions (positions : List WaterfallPosition) (pr : ℤ) : List WaterfallPosition :=
  positions.filter (fun p => decide (p.priority = pr))

/-- Total preference of one tier. -/
def tierPreference (positions : List WaterfallPosition) (pr : ℤ) : ℤ :=
  ((tierPositions positions pr).map (·.preference_amount)).sum

/-- The distinct priorities present, ascending (`sorted(tiers_map.keys())`). -/
def sortedPriorities (positions : List WaterfallPosition) : List ℤ :=
  List.insertionSort (· ≤ ·) ((positions.map (·.priority)).dedup)

/-- Partial-satisfaction payout of the preference branch: Python
`share_of_remaining = pos.preference_amount / total_preference` (binary64
division) then `int(remaining * share_of_remaining)`; `0` when the tier's
total preference is not positive. -/
def b1PartialPayout (remaining tp : ℤ) (p : WaterfallPosition) : ℤ :=
  if 0 < tp then pyIntMulFloat remaining (flmk p.preference_amount tp) else 0

/-- The per-priority loop of the `total_all_preferences >= exit_amount`
branch of `calculate_waterfall`, carrying the `remaining` accumulator;
returns the built tier list and the final `remaining`. -/
def branch1Go (positions : List WaterfallPosition) : ℤ → List ℤ → (List WaterfallTier × ℤ)
  | remaining, [] => ([], remaining)
  | remaining, pr :: rest =>
    let tps := tierPositions positions pr
    let tp := tierPreference positions pr
    if remaining ≤ 0 then
      let tier : WaterfallTier :=
        { priority := pr, total_preference := tp, amount_available := 0,
          amount_distributed := 0, fully_satisfied := false,
          payouts := tps.map (fun p => mkPayout p 0 "none") }
      let r1 := branch1Go positions remaining rest
      (tier :: r1.1, r1.2)
    else if tp ≤ remaining then
      let tier : WaterfallTier :=
        { priority := pr, total_preference := tp, amount_available := remaining,
          amount_distributed := tp, fully_satisfied := true,
          payouts := tps.map (fun p => mkPayout p p.preference_amount "preference") }
      let r1 := branch1Go positions (remaining - tp) rest
      (tier :: r1.1, r1.2)
    else
      let tier : WaterfallTier :=
        { priority := pr, total_preference := tp, amount_available := remaining,
          amount_distributed := remaining, fully_satisfied := false,
          payouts := tps.map (fun p => mkPayout p (b1PartialPayout remaining tp p) "partial_preference") }
      let r1 := branch1Go positions 0 rest
      (tier :: r1.1, r1.2)

/-- Per-holder decision of the `exit_amount` > total-preferences branch:
a holder with positive preference takes the greater of the fixed
preference and the converted pro-rata value
`int(exit_amount * pos.shares / total_shares)` (ties go to preference);
other holders are tagged `"common"` with a placeholder payout of `0`. -/
def b2decision (exit_amount total_shares : ℤ) (p : WaterfallPosition) : ℤ × String :=
  if 0 < p.preference_amount then
    let pref_payout := p.preference_amount
    let convert_payout :=
      if 0 < total_shares then pyIntMulDiv exit_amount p.shares total_shares else 0
    if pref_payout < convert_payout then (convert_payout, "conversion")
    else (pref_payout, "preference")
  else (0, "common")

/-- First pass of the conversion branch: fill the `final_payouts` dict,
keyed by wallet (a later position of the same wallet overwrites an
earlier one, as in Python). -/
def b2FirstPass (exit_amount total_shares : ℤ) (positions : List WaterfallPosition) :
    List (String × (ℤ × String)) :=
  positions.foldl (fun fp p => dset fp p.wallet (b2decision exit_amount total_shares p)) []

/-- Amount taken by fixed preferences: sum over the dict items tagged
`"preference"`. -/
def b2PrefTaken (fp : List (String × (ℤ × String))) : ℤ :=
  ((fp.filter (fun kv => decide (kv.2.2 = "preference"))).map (fun kv => kv.2.1)).sum

/-- Amount taken by conversions: sum over the dict items tagged
`"conversion"`. -/
def b2ConvTaken (fp : List (String × (ℤ × String))) : ℤ :=
  ((fp.filter (fun kv => decide (kv.2.2 = "conversion"))).map (fun kv => kv.2.1)).sum

/-- Shares of the positions whose wallet is tagged `"common"`
(`common_only_shares`). -/
def b2CommonShares (positions : List WaterfallPosition)
    (fp : List (String × (ℤ × String))) : ℤ :=
  ((positions.filter (fun p => decide ((dget fp p.wallet (0, "")).2 = "common"))).map
    (·.shares)).sum

/-- Second pass of the conversion branch: distribute
`remaining_for_common` pro-rata by shares over the wallets tagged
`"common"` (`int(remaining_for_common * pos.shares / common_only_shares)`,
`0` when no common shares exist). Every wallet of `positions` is present
in the dict after the first pass, so the lookup default is never used. -/
def b2SecondPass (positions : List WaterfallPosition)
    (fp : List (String × (ℤ × String))) (remaining_for_common common_only_shares : ℤ) :
    List (String × (ℤ × String)) :=
  positions.foldl (fun fp1 p =>
    if (dget fp1 p.wallet (0, "")).2 = "common" then
      dset fp1 p.wallet
        (if 0 < common_only_shares then
          pyIntMulDiv remaining_for_common p.shares common_only_shares
         else 0, "common")
    else fp1) fp

/-- Result tiers of the conversion branch: one tier per priority, each row
reading the wallet's final dict entry; every tier is emitted with
`amount_available = exit_amount` and `fully_satisfied = True`. -/
def b2Tiers (positions : List WaterfallPosition)
    (fp1 : List (String × (ℤ × String))) (exit_amount : ℤ) : List WaterfallTier :=
  (sortedPriorities positions).map (fun pr =>
    let tps := tierPositions positions pr
    let rows := tps.map (fun p =>
      let pv := dget fp1 p.wallet (0, "")
      mkPayout p pv.1 pv.2)
    { priority := pr, total_preference := tierPreference positions pr,
      amount_available := exit_amount,
      amount_distributed := (rows.map (·.payout)).sum,
      fully_satisfied := true, payouts := rows })

/-- Liquidation waterfall (`calculate_waterfall`). The source also binds
`remaining_after_preferences`, `common_shares` and `preferred_shares` in
the conversion branch but never reads them; those dead locals are not
modelled. -/
def calculate_waterfall (positions : List WaterfallPosition) (exit_amount : ℤ) :
    WaterfallResult :=
  if positions = [] then
    { exit_amount := exit_amount, total_shares := 0, tiers := [],
      remaining_amount := exit_amount }
  else
    let total_shares := totalShares positions
    let total_all_preferences := totalPreferences positions
    if exit_amount ≤ total_all_preferences then
      let r1 := branch1Go positions exit_amount (sortedPriorities positions)
      { exit_amount := exit_amount, total_shares := total_shares,
        tiers := r1.1, remaining_amount := r1.2 }
    else
      let fp0 := b2FirstPass exit_amount total_shares positions
      let pref_taken := b2PrefTaken fp0
      let conv_taken := b2ConvTaken fp0
      let remaining_for_common := exit_amount - pref_taken - conv_taken
      let common_only_shares := b2CommonShares positions fp0
      let fp1 := b2SecondPass positions fp0 remaining_for_common common_only_shares
      let tiers := b2Tiers positions fp1 exit_amount
      { exit_amount := exit_amount, total_shares := total_shares, tiers := tiers,
        remaining_amount := exit_amount - ((tiers.map (·.amount_distributed)).sum) }

/-- Sum of every payout in every tier of a result. -/
def WaterfallResult.allPayoutsSum (r : WaterfallResult) : ℤ :=
  ((r.tiers.map (fun t => (t.payouts.map (·.payout)).sum)).sum)

/-- All payout rows of a result that belong to a wallet, in tier order. -/
def WaterfallResult.rowsFor (r : WaterfallResult) (w : String) : List WaterfallPayout :=
  (r.tiers.flatMap (·.payouts)).filter (fun p => decide (p.wallet = w))

/-! # Vesting math (`app/models/vesting.py`) -/

/-- A `vesting_schedules` row, restricted to the columns the interval math
reads. Time is modelled in whole seconds: `calculate_vested` receives the
elapsed time `current_time - start_time` directly (the Python float
`total_seconds()` is exact for these values). -/
structure VestingSchedule where
  total_amount : ℤ
  released_amount : ℤ := 0
  start_time : ℤ := 0
  cliff_seconds : ℤ := 0
  duration_seconds : ℤ
  interval : String := "minute"
  intervals_released : ℤ := 0
  revoked : Bool := false
  termination_type : Option String := none
  vested_at_termination : Option ℤ := none
deriving DecidableEq, Repr

/-- Interval duration in seconds (`VestingInterval.to_seconds`, with the
`interval_seconds` property defaulting an unknown string to a minute). -/
def VestingSchedule.interval_seconds (s : VestingSchedule) : ℤ :=
  if s.interval = "minute" then 60
  else if s.interval = "hour" then 3600
  else if s.interval = "day" then 86400
  else if s.interval = "month" then 30 * 86400
  else 60

/-- Total number of vesting intervals after the cliff
(`VestingSchedule.total_intervals`); Python `//` is floor division. -/
def VestingSchedule.total_intervals (s : VestingSchedule) : ℤ :=
  let vesting_duration := s.duration_seconds - s.cliff_seconds
  if vesting_duration ≤ 0 then 1
  else max 1 (Int.fdiv vesting_duration s.interval_seconds)

/-- Amount released per interval (`VestingSchedule.amount_per_interval`). -/
def VestingSchedule.amount_per_interval (s : VestingSchedule) : ℤ :=
  let total := s.total_intervals
  if total = 0 then s.total_amount else Int.fdiv s.total_amount total

/-- Remainder distributed to the final intervals
(`VestingSchedule.remainder`); Python `%` is floor mod. -/
def VestingSchedule.remainder (s : VestingSchedule) : ℤ :=
  let total := s.total_intervals
  if total = 0 then 0 else Int.fmod s.total_amount total

/-- Vested amount at a given time (`VestingSchedule.calculate_vested`),
as a function of `elapsed = (current_time - start_time).total_seconds()`. -/
def VestingSchedule.calculate_vested (s : VestingSchedule) (elapsed : ℤ) : ℤ :=
  match s.vested_at_termination with
  | some v => v
  | none =>
    if s.revoked then s.released_amount
    else if elapsed < 0 then 0
    else if s.duration_seconds ≤ elapsed then s.total_amount
    else if elapsed < s.cliff_seconds then 0
    else
      let time_after_cliff := elapsed - s.cliff_seconds
      let intervals_elapsed := Int.fdiv time_after_cliff s.interval_seconds
      let total_intervals := s.total_intervals
      let amount_per := s.amount_per_interval
      let rem := s.remainder
      if total_intervals = 0 then s.total_amount
      else
        let vested := amount_per * intervals_elapsed
        let vested :=
          if total_intervals - rem < intervals_elapsed then
            vested + (intervals_elapsed - (total_intervals - rem))
          else vested
        min vested s.total_amount

/-! # Dilution simulator (`app/services/dilution.py`)

The display-only binary64 percentage fields (`CurrentHolder.ownership_pct`,
`DilutedPosition.ownership_before/after/dilution_pct`,
`NewInvestorPosition.ownership_pct`, each produced with Python
`round(x, 4)`) are not modelled: no claim refers to them and they feed
nothing else. All share/valuation/price arithmetic below is the source's
integer arithmetic (`//` is floor division). -/

/-- Current shareholder for dilution calculation (`CurrentHolder`). -/
structure CurrentHolder where
  wallet : String
  shares : ℤ
  share_class_name : String
  cost_basis : ℤ
deriving DecidableEq, Repr

/-- A hypothetical funding round (`SimulatedRound`). -/
structure SimulatedRound where
  name : String
  pre_money_valuation : ℤ
  amount_raised : ℤ
deriving DecidableEq, Repr

/-- Post-money valuation property. -/
def SimulatedRound.post_money_valuation (r : SimulatedRound) : ℤ :=
  r.pre_money_valuation + r.amount_raised

/-- A holder's position after dilution (`DilutedPosition`). -/
structure DilutedPosition where
  wallet : String
  shares_before : ℤ
  shares_after : ℤ
  value_before : ℤ
  value_after : ℤ
deriving DecidableEq, Repr

/-- New investor position from a simulated round (`NewInvestorPosition`). -/
structure NewInvestorPosition where
  round_name : String
  amount_invested : ℤ
  shares_received : ℤ
  price_per_share : ℤ
deriving DecidableEq, Repr

/-- Complete dilution simulation result (`DilutionResult`). -/
structure DilutionResult where
  rounds : List SimulatedRound
  shares_before : ℤ
  valuation_before : ℤ
  price_per_share_before : ℤ
  shares_after : ℤ
  valuation_after : ℤ
  price_per_share_after : ℤ
  existing_holders : List DilutedPosition
  new_investors : List NewInvestorPosition
deriving DecidableEq, Repr

/-- One iteration of the round loop of `calculate_dilution`: the state is
`(total_shares, running_valuation, new_investors)`. -/
def dilutionStep (st : ℤ × ℤ × List NewInvestorPosition) (round_info : SimulatedRound) :
    ℤ × ℤ × List NewInvestorPosition :=
  let total_shares := st.1
  let price0 :=
    if 0 < total_shares then Int.fdiv round_info.pre_money_valuation total_shares else 1
  let price_per_share := if price0 ≤ 0 then 1 else price0
  let new_shares := Int.fdiv round_info.amount_raised price_per_share
  (total_shares + new_shares,
   round_info.post_money_valuation,
   st.2.2 ++ [{ round_name := round_info.name,
                amount_invested := round_info.amount_raised,
                shares_received := new_shares,
                price_per_share := price_per_share }])

/-- Dilution simulation (`calculate_dilution`). -/
def calculate_dilution (current_holders : List CurrentHolder)
    (current_valuation : ℤ) (simulated_rounds : List SimulatedRound) : DilutionResult :=
  if current_holders = [] then
    { rounds := simulated_rounds, shares_before := 0,
      valuation_before := current_valuation, price_per_share_before := 0,
      shares_after := 0, valuation_after := current_valuation,
      price_per_share_after := 0, existing_holders := [], new_investors := [] }
  else
    let shares_before := (current_holders.map (·.shares)).sum
    let price_per_share_before :=
      if 0 < shares_before then Int.fdiv current_valuation shares_before else 0
    let final := simulated_rounds.foldl dilutionStep (shares_before, current_valuation, [])
    let total_shares := final.1
    let running_valuation := final.2.1
    let new_investors := final.2.2
    let price_per_share_after :=
      if 0 < total_shares then Int.fdiv running_valuation total_shares else 0
    let diluted_holders := current_holders.map (fun h =>
      { wallet := h.wallet, shares_before := h.shares, shares_after := h.shares,
        value_before := h.shares * price_per_share_before,
        value_after := h.shares * price_per_share_after : DilutedPosition })
    { rounds := simulated_rounds, shares_before := shares_before,
      valuation_before := current_valuation,
      price_per_share_before := price_per_share_before,
      shares_after := total_shares, valuation_after := running_valuation,
      price_per_share_after := price_per_share_after,
      existing_holders := diluted_holders, new_investors := new_investors }

/-- The claim's description of the per-round price: floor of pre-money
valuation over shares outstanding so far, with a minimum of one unit, and
a fallback of one unit when no shares are outstanding. -/
def dilutionSpecPrice (pre so_far : ℤ) : ℤ :=
  if 0 < so_far then max 1 (Int.fdiv pre so_far) else 1

/-- The claim's round recurrence: returns the final shares outstanding,
the final valuation, and the per-round `(price_per_share, new_shares)`
pairs. -/
def dilutionSpecGo : ℤ → ℤ → List SimulatedRound → ℤ × ℤ × List (ℤ × ℤ)
  | so_far, val, [] => (so_far, val, [])
  | so_far, _, r :: rest =>
    let price := dilutionSpecPrice r.pre_money_valuation so_far
    let new_shares := Int.fdiv r.amount_raised price
    let nxt := dilutionSpecGo (so_far + new_shares) r.post_money_valuation rest
    (nxt.1, nxt.2.1, (price, new_shares) :: nxt.2.2)

/-! # Statement-side predicates -/

/-- Sum of all balance values of a token state. -/
def sumBalances (s : TokenState) : ℤ := (s.balances.map (·.2)).sum

/-- Structurally invalid ledger entries in the sense of the specification's
failure-semantics clause, restricted to the shapes the claims cite: a
share-moving entry missing its wallet or amount (or, for a transfer, its
destination wallet), or a stock split whose denominator is present but not
positive. -/
def structurallyInvalidEntry (tx : UnifiedTransaction) : Prop :=
  (tx.tx_type ∈ ([.MINT, .SHARE_GRANT, .TRANSFER, .BURN, .VESTING_RELEASE,
      .CONVERTIBLE_CONVERT, .INVESTMENT] : List TransactionType) ∧
    (¬ strTruthy tx.wallet ∨ ¬ intTruthy tx.amount))
  ∨ (tx.tx_type = .TRANSFER ∧ ¬ strTruthy tx.wallet_to)
  ∨ (tx.tx_type = .STOCK_SPLIT ∧ ∃ d, tx.data = some d ∧ d.denominator.getD 1 ≤ 0)

/-- Characterization of the tier list produced by the preference branch of
the waterfall, phrased as the claim describes it: walking the tiers in
order with the funds that remain, a tier is paid its full preference when
it fits (source `"preference"`, satisfied), the first tier it does not fit
in receives exactly the remaining funds, split by each holder's share of
the tier preference (source `"partial_preference"`, unsatisfied), and a
tier reached with nothing left gets zero (source `"none"`). -/
def WaterfallPrefSpec (positions : List WaterfallPosition) : ℤ → List WaterfallTier → Prop
  | _, [] => True
  | remaining, t :: ts =>
    (t.total_preference = tierPreference positions t.priority ∧
      ((remaining ≤ 0 ∧ t.fully_satisfied = false ∧ t.amount_distributed = 0 ∧
          t.payouts = (tierPositions positions t.priority).map (fun p => mkPayout p 0 "none")) ∨
        (0 < remaining ∧ t.total_preference ≤ remaining ∧ t.fully_satisfied = true ∧
          t.amount_distributed = t.total_preference ∧
          t.payouts = (tierPositions positions t.priority).map
            (fun p => mkPayout p p.preference_amount "preference")) ∨
        (0 < remaining ∧ remaining < t.total_preference ∧ t.fully_satisfied = false ∧
          t.amount_distributed = remaining ∧
          t.payouts = (tierPositions positions t.priority).map
            (fun p => mkPayout p (b1PartialPayout remaining t.total_preference p) "partial_preference"))))
    ∧ WaterfallPrefSpec positions (remaining - t.amount_distributed) ts

/-- The converted (as-if-common) value of a position in the conversion
branch: the binary64 quotient `exit_amount * shares / total_shares`,
truncated toward zero; `0` when no shares exist. -/
def convertedValue (exit_amount tshares : ℤ) (p : WaterfallPosition) : ℤ :=
  if 0 < tshares then pyIntMulDiv exit_amount p.shares tshares else 0

/-- Fixed preferences taken in the conversion branch, summed position-wise
(equals the source's dict-item sum when each wallet holds one position). -/
def c7PrefTaken (positions : List WaterfallPosition) (exit_amount : ℤ) : ℤ :=
  ((positions.filter (fun p => decide (0 < p.preference_amount) &&
      !decide (p.preference_amount < convertedValue exit_amount (totalShares positions) p))).map
    (·.preference_amount)).sum

/-- Conversion payouts taken in the conversion branch, summed
position-wise. -/
def c7ConvTaken (positions : List WaterfallPosition) (exit_amount : ℤ) : ℤ :=
  ((positions.filter (fun p => decide (0 < p.preference_amount) &&
      decide (p.preference_amount < convertedValue exit_amount (totalShares positions) p))).map
    (fun p => convertedValue exit_amount (totalShares positions) p)).sum

/-- Shares held by true common (no positive preference), summed
position-wise. -/
def c7CommonShares (positions : List WaterfallPosition) : ℤ :=
  ((positions.filter (fun p => decide (p.preference_amount ≤ 0))).map (·.shares)).sum

/-! # Concrete inputs for witnesses and counterexamples -/

/-- A mint of 1000 shares to wallet `A` at slot 10. -/
def exMintTx : UnifiedTransaction :=
  { id := 1, token_id := 1, slot := 10, tx_type := .MINT, wallet := some "A",
    amount := some 1000, amount_secondary := some 5000, share_class_id := some 1,
    priority := some 1, preference_multiple := some (fofInt 1) }

/-- A transfer of 300 shares from `A` to `B` at slot 20. -/
def exTransferTx : UnifiedTransaction :=
  { id := 2, token_id := 1, slot := 20, tx_type := .TRANSFER, wallet := some "A",
    wallet_to := some "B", amount := some 300 }

/-- A mint whose amount column is NULL: structurally invalid. -/
def exBadMintTx : UnifiedTransaction :=
  { id := 3, token_id := 1, slot := 15, tx_type := .MINT, wallet := some "A" }

/-- Mint of a single share to `A` at slot 1. -/
def c2MintA : UnifiedTransaction :=
  { id := 1, token_id := 1, slot := 1, tx_type := .MINT, wallet := some "A",
    amount := some 1 }

/-- Mint of a single share to `B` at slot 2. -/
def c2MintB : UnifiedTransaction :=
  { id := 2, token_id := 1, slot := 2, tx_type := .MINT, wallet := some "B",
    amount := some 1 }

/-- A 1:2 reverse stock split at slot 3. -/
def c2SplitTx : UnifiedTransaction :=
  { id := 3, token_id := 1, slot := 3, tx_type := .STOCK_SPLIT,
    data := some { numerator := some 1, denominator := some 2 } }

/-- A token state holding a single wallet with 100 shares. -/
def c4State : TokenState :=
  { slot := 0, balances := [("A", 100)], total_supply := 100 }

/-- A 29:100 stock split. -/
def c4SplitTx : UnifiedTransaction :=
  { id := 1, token_id := 1, slot := 1, tx_type := .STOCK_SPLIT,
    data := some { numerator := some 29, denominator := some 100 } }

/-- Preferred holder with preference amount 3 (cost basis 3, multiple 1.0). -/
def c5X : WaterfallPosition :=
  { wallet := "X", share_class_name := "Pref", priority := 1, shares := 10,
    cost_basis := 3, preference_multiple := fofInt 1 }

/-- Second preferred holder with preference amount 3, same tier. -/
def c5Y : WaterfallPosition :=
  { wallet := "Y", share_class_name := "Pref", priority := 1, shares := 10,
    cost_basis := 3, preference_multiple := fofInt 1 }

/-- The spec's example common holder: 1000 shares, no preference. -/
def exCommon : WaterfallPosition :=
  { wallet := "common", share_class_name := "Common", priority := 99,
    shares := 1000, cost_basis := 0, preference_multiple := fofInt 1 }

/-- The spec's example Series A holder: 500 shares, cost basis 100000,
multiple 1.0, priority 1. -/
def exSeriesA : WaterfallPosition :=
  { wallet := "seriesA", share_class_name := "Series A", priority := 1,
    shares := 500, cost_basis := 100000, preference_multiple := fofInt 1 }

/-- Preferred holder with preference 1 and a single share. -/
def c7P : WaterfallPosition :=
  { wallet := "P", share_class_name := "Pref", priority := 1, shares := 1,
    cost_basis := 1, preference_multiple := fofInt 1 }

/-- Common holder with two shares. -/
def c7C : WaterfallPosition :=
  { wallet := "C", share_class_name := "Common", priority := 99, shares := 2,
    cost_basis := 0, preference_multiple := fofInt 1 }

/-- The spec's example vesting schedule: 100 tokens over 7 one-minute
intervals, no cliff. -/
def exSched : VestingSchedule :=
  { total_amount := 100, duration_seconds := 420, cliff_seconds := 0,
    interval := "minute" }

/-- A degenerate schedule whose cliff (600s) exceeds its duration (300s). -/
def c8BadSched : VestingSchedule :=
  { total_amount := 100, duration_seconds := 300, cliff_seconds := 600,
    interval := "minute" }

/-- A single current holder with 1000 shares. -/
def exHolder : CurrentHolder :=
  { wallet := "H", shares := 1000, share_class_name := "Common", cost_basis := 0 }

/-- A hypothetical seed round: 2,000,000 pre-money, 500,000 raised. -/
def exRound : SimulatedRound :=
  { name := "Seed", pre_money_valuation := 2000000, amount_raised := 500000 }

/-- A state with balances and one position, used to demonstrate the
transfer frame conditions. -/
def c10State : TokenState :=
  { slot := 7, approved_wallets := ["A", "B"], balances := [("A", 500)],
    positions := [(("A", some 1),
      { wallet := "A", share_class_id := 1, shares := 500, cost_basis := 100,
        priority := 1, preference_multiple := fofInt 1 })],
    total_supply := 500 }

/-! # Dictionary lemmas -/

theorem dget_dset_self {α β : Type} [DecidableEq α] (d : List (α × β)) (k : α) (v : β)
    (dflt : β) : dget (dset d k v) k dflt = v := by
  induction d with
  | nil => simp [dset, dget]
  | cons kv rest ih =>
    obtain ⟨k', v'⟩ := kv
    by_cases h : k' = k
    · simp [dset, dget, h]
    · simp [dset, dget, h, ih]

theorem dget_dset_ne {α β : Type} [DecidableEq α] (d : List (α × β)) (k k' : α) (v : β)
    (dflt : β) (h : k ≠ k') : dget (dset d k v) k' dflt = dget d k' dflt := by
  induction d with
  | nil => simp [dset, dget, h]
  | cons kv rest ih =>
    obtain ⟨k0, v0⟩ := kv
    by_cases h0 : k0 = k
    · subst h0; simp [dset, dget, h]
    · simp only [dset, if_neg h0, dget]
      by_cases h1 : k0 = k'
      · simp [h1]
      · simp [h1, ih]

theorem sum_dset_get_add {α : Type} [DecidableEq α] (d : List (α × ℤ)) (k : α) (a : ℤ) :
    ((dset d k (dget d k 0 + a)).map (·.2)).sum = (d.map (·.2)).sum + a := by
  induction d with
  | nil => simp [dset, dget]
  | cons kv rest ih =>
    obtain ⟨k0, v0⟩ := kv
    by_cases h : k0 = k
    · simp only [dset, dget, if_pos h]
      simp; ring
    · simp only [dset, dget, if_neg h]
      simp only [List.map_cons, List.sum_cons, ih]
      ring

/-! # Slot invariance and the snapshot equivalence (C1) -/

theorem addShares_slot (s : TokenState) (tx : UnifiedTransaction) (c : ℤ) :
    addSharesPosition { s with slot := c } tx
      = { addSharesPosition s tx with slot := c } := rfl

theorem addSharesRelease_slot (s : TokenState) (tx : UnifiedTransaction) (c : ℤ) :
    addSharesRelease { s with slot := c } tx
      = { addSharesRelease s tx with slot := c } := rfl

theorem applySplit_slot (s : TokenState) (n d c : ℤ) :
    applySplit { s with slot := c } n d = { applySplit s n d with slot := c } := rfl

theorem apply_slot (s : TokenState) (tx : UnifiedTransaction) (c : ℤ) :
    _apply_transaction { s with slot := c } tx
      = { _apply_transaction s tx with slot := c } := by
  obtain ⟨i, tok, sl, ty, w, wt, a, a2, sc, pr, pm, pps, rid, data⟩ := tx
  cases ty <;>
    simp only [_apply_transaction, addShares_slot, addSharesRelease_slot, applySplit_slot] <;>
    try rfl
  case APPROVAL => split_ifs <;> rfl
  case REVOCATION => split_ifs <;> rfl
  case MINT => split_ifs <;> rfl
  case SHARE_GRANT => split_ifs <;> rfl
  case TRANSFER => split_ifs <;> rfl
  case BURN => split_ifs <;> rfl
  case VESTING_SCHEDULE_CREATE => split_ifs <;> rfl
  case VESTING_RELEASE => split_ifs <;> rfl
  case VESTING_TERMINATE => split_ifs <;> rfl
  case STOCK_SPLIT => cases data <;> simp only [applySplit_slot] <;> try rfl
                      split_ifs <;> rfl
  case PAUSE => cases data <;> rfl
  case CONVERTIBLE_CONVERT => split_ifs <;> rfl
  case INVESTMENT => split_ifs <;> rfl

theorem foldl_apply_slot (l : List UnifiedTransaction) (s : TokenState) (c : ℤ) :
    l.foldl _apply_transaction { s with slot := c }
      = { l.foldl _apply_transaction s with slot := c } := by
  induction l generalizing s with
  | nil => rfl
  | cons tx rest ih => simp only [List.foldl_cons, apply_slot, ih]

theorem filter_interval_decomp {α : Type} (f : α → ℤ) (q : α → Bool) (a b : ℤ)
    (hab : a ≤ b) (l : List α) (hsort : l.Pairwise (fun x y => f x ≤ f y)) :
    l.filter (fun x => q x && decide (f x ≤ b)) =
      l.filter (fun x => q x && decide (f x ≤ a)) ++
        l.filter (fun x => q x && decide (a < f x) && decide (f x ≤ b)) := by
  induction l with
  | nil => simp
  | cons x rest ih =>
    have hrest := ih (List.Pairwise.sublist (List.sublist_cons_self x rest) hsort)
    have hx : ∀ y ∈ rest, f x ≤ f y := by
      intro y hy; exact (List.pairwise_cons.mp hsort).1 y hy
    by_cases hq : q x
    · by_cases hxa : f x ≤ a
      · have hxb : f x ≤ b := le_trans hxa hab
        have hnlt : ¬ a < f x := not_lt.mpr hxa
        simp [List.filter_cons, hq, hxa, hxb, hnlt, hrest]
      · have hagt : a < f x := not_le.mp hxa
        have hrest_a : rest.filter (fun y => q y && decide (f y ≤ a)) = [] := by
          rw [List.filter_eq_nil_iff]
          intro y hy
          have := hx y hy
          simp only [Bool.and_eq_true, decide_eq_true_eq, not_and]
          intro _; omega
        have hrest_mid : rest.filter (fun y => q y && decide (f y ≤ b)) =
            rest.filter (fun y => q y && decide (a < f y) && decide (f y ≤ b)) := by
          apply List.filter_congr
          intro y hy
          have h1 := hx y hy
          have h2 : a < f y := by omega
          simp [h2]
        by_cases hxb : f x ≤ b
        · simp [List.filter_cons, hq, hxb, hagt, hxa, hrest_a, hrest_mid]
        · simp [List.filter_cons, hq, hxb, hxa, hrest, hrest_a, hrest_mid]
    · simp only [List.filter_cons, hq, Bool.false_and, if_false]
      exact hrest

theorem foldl_snapshot_split (ledger : List UnifiedTransaction)
    (q : UnifiedTransaction → Bool) (a b : ℤ) (hab : a ≤ b)
    (hsort : ledger.Pairwise (fun x y => x.slot ≤ y.slot)) :
    (ledger.filter (fun tx => q tx && decide (a < tx.slot) && decide (tx.slot ≤ b))).foldl
        _apply_transaction
        ({ (ledger.filter (fun tx => q tx && decide (tx.slot ≤ a))).foldl
            _apply_transaction (emptyState a) with slot := b })
      = (ledger.filter (fun tx => q tx && decide (tx.slot ≤ b))).foldl
          _apply_transaction (emptyState b) := by
  rw [filter_interval_decomp (fun tx => tx.slot) q a b hab ledger hsort]
  rw [List.foldl_append, ← foldl_apply_slot]
  rfl

/-- Claim C1: replay resumed from a snapshot at any order key at or below
the target equals full replay from the empty state: for a `(slot, id)`
sorted ledger, folding only the entries in `(snap_slot, target_slot]` on
top of the reconstructed state at `snap_slot` yields exactly
`reconstruct_at_slot` at `target_slot` — which itself never consults a
snapshot, so its result does not depend on snapshot availability. -/
theorem c1_snapshot_equivalence (ledger : List UnifiedTransaction)
    (token_id snap_slot target_slot : ℤ)
    (hsort : ledger.Pairwise (fun x y => x.slot ≤ y.slot))
    (hle : snap_slot ≤ target_slot) :
    reconstruct_from_snapshot ledger token_id snap_slot target_slot
      = reconstruct_at_slot ledger token_id target_slot :=
  foldl_snapshot_split ledger (fun tx => decide (tx.token_id = token_id))
    snap_slot target_slot hle hsort

/-! # Conservation (C2) -/

theorem addShares_sumBalances (s : TokenState) (tx : UnifiedTransaction) :
    sumBalances (addSharesPosition s tx) = sumBalances s + tx.amount.getD 0 := by
  simp [addSharesPosition, sumBalances, sum_dset_get_add]

theorem addShares_supply (s : TokenState) (tx : UnifiedTransaction) :
    (addSharesPosition s tx).total_supply = s.total_supply + tx.amount.getD 0 := rfl

theorem addSharesRelease_sumBalances (s : TokenState) (tx : UnifiedTransaction) :
    sumBalances (addSharesRelease s tx) = sumBalances s + tx.amount.getD 0 := by
  simp [addSharesRelease, sumBalances, sum_dset_get_add]

theorem addSharesRelease_supply (s : TokenState) (tx : UnifiedTransaction) :
    (addSharesRelease s tx).total_supply = s.total_supply + tx.amount.getD 0 := rfl

theorem apply_conserves (s : TokenState) (tx : UnifiedTransaction)
    (h : tx.tx_type ≠ .STOCK_SPLIT) (hc : sumBalances s = s.total_supply) :
    sumBalances (_apply_transaction s tx) = (_apply_transaction s tx).total_supply := by
  cases hty : tx.tx_type <;> simp only [_apply_transaction, hty] <;> try exact hc
  case APPROVAL => split_ifs <;> simpa [sumBalances]
  case REVOCATION => split_ifs <;> simpa [sumBalances]
  case MINT =>
    split_ifs with hg
    · rw [addShares_sumBalances, addShares_supply, hc]
    · exact hc
  case SHARE_GRANT =>
    split_ifs with hg
    · rw [addShares_sumBalances, addShares_supply, hc]
    · exact hc
  case TRANSFER =>
    split_ifs with hg
    · simp only [sumBalances]
      rw [show ∀ (d : List (String × ℤ)) (k : String) (x : ℤ),
            dget d k 0 - x = dget d k 0 + (-x) from fun _ _ _ => by ring]
      rw [sum_dset_get_add, sum_dset_get_add]
      simpa [sumBalances] using hc
    · exact hc
  case BURN =>
    split_ifs with hg
    · simp only [sumBalances]
      rw [show ∀ (d : List (String × ℤ)) (k : String) (x : ℤ),
            dget d k 0 - x = dget d k 0 + (-x) from fun _ _ _ => by ring]
      rw [sum_dset_get_add]
      simp only [sumBalances] at hc
      omega
    · exact hc
  case VESTING_SCHEDULE_CREATE => split_ifs <;> simpa [sumBalances]
  case VESTING_RELEASE =>
    split_ifs with hg hr
    · have h1 := addSharesRelease_sumBalances s tx
      have h2 := addSharesRelease_supply s tx
      simp only [sumBalances] at h1 hc ⊢
      rw [h1, h2, hc]
    · rw [addSharesRelease_sumBalances, addSharesRelease_supply, hc]
    · exact hc
  case VESTING_TERMINATE => split_ifs <;> simpa [sumBalances]
  case PAUSE => cases tx.data <;> simpa [sumBalances]
  case CONVERTIBLE_CONVERT =>
    split_ifs with hg
    · rw [addShares_sumBalances, addShares_supply, hc]
    · exact hc
  case INVESTMENT =>
    split_ifs with hg
    · rw [addShares_sumBalances, addShares_supply, hc]
    · exact hc
  case STOCK_SPLIT => exact absurd hty h

theorem foldl_conserves (txs : List UnifiedTransaction) :
    ∀ s : TokenState, (∀ tx ∈ txs, tx.tx_type ≠ .STOCK_SPLIT) →
      sumBalances s = s.total_supply →
      sumBalances (txs.foldl _apply_transaction s)
        = (txs.foldl _apply_transaction s).total_supply := by
  induction txs with
  | nil => intro s _ hc; exact hc
  | cons tx rest ih =>
    intro s h hc
    simp only [List.foldl_cons]
    exact ih _ (fun t ht => h t (List.mem_cons_of_mem _ ht))
      (apply_conserves s tx (h tx (List.mem_cons_self tx rest)) hc)

/-- Claim C2 (amended): folding any sequence of ledger entries that
contains no `stock_split` entry from the empty state preserves
`total_supply = sum(balances.values())` after every fold step (every
prefix). The restriction to split-free sequences is forced: a stock split
rounds each wallet's balance and the total supply independently (see the
counterexample), so the invariant does not survive splits. -/
theorem c2_conservation (slot : ℤ) (txs : List UnifiedTransaction)
    (h : ∀ tx ∈ txs, tx.tx_type ≠ .STOCK_SPLIT) (n : ℕ) :
    sumBalances ((txs.take n).foldl _apply_transaction (emptyState slot))
      = ((txs.take n).foldl _apply_transaction (emptyState slot)).total_supply := by
  refine foldl_conserves (txs.take n) (emptyState slot) ?_ (by simp [sumBalances, emptyState])
  intro tx htx
  exact h tx ((txs.take_sublist n).subset htx)

/-- Claim C2 counterexample: minting one share each to two wallets and
then applying a 1:2 reverse split yields balances summing to 0 but a total
supply of 1 — the conservation invariant fails on a sequence containing a
`stock_split` entry. -/
theorem c2_counterexample :
    sumBalances ([c2MintA, c2MintB, c2SplitTx].foldl _apply_transaction (emptyState 0)) = 0
    ∧ ([c2MintA, c2MintB, c2SplitTx].foldl _apply_transaction (emptyState 0)).total_supply = 1
    ∧ ¬ (sumBalances ([c2MintA, c2MintB, c2SplitTx].foldl _apply_transaction (emptyState 0))
        = ([c2MintA, c2MintB, c2SplitTx].foldl _apply_transaction (emptyState 0)).total_supply) := by
  refine ⟨by decide, by decide, by decide⟩

/-- Claim C2 witness: the conservation theorem applied to a concrete
split-free sequence (a mint followed by a transfer). -/
theorem c2_witness :
    (∀ tx ∈ [exMintTx, exTransferTx], tx.tx_type ≠ TransactionType.STOCK_SPLIT)
    ∧ sumBalances (([exMintTx, exTransferTx].take 2).foldl _apply_transaction (emptyState 0))
      = (([exMintTx, exTransferTx].take 2).foldl _apply_transaction (emptyState 0)).total_supply :=
  ⟨by decide, c2_conservation 0 [exMintTx, exTransferTx] (by decide) 2⟩

/-- Claim C1 witness: the snapshot equivalence applied to a concrete
two-entry ledger with a snapshot point between the entries. -/
theorem c1_witness :
    ([exMintTx, exTransferTx] : List UnifiedTransaction).Pairwise (fun x y => x.slot ≤ y.slot)
    ∧ (10 : ℤ) ≤ 20
    ∧ reconstruct_from_snapshot [exMintTx, exTransferTx] 1 10 20
      = reconstruct_at_slot [exMintTx, exTransferTx] 1 20 :=
  ⟨by decide, by decide, c1_snapshot_equivalence [exMintTx, exTransferTx] 1 10 20
    (by decide) (by decide)⟩

/-! # Failure semantics (C3) -/

/-- Claim C3 (amended): reconstruction never fails and never aborts; a
structurally invalid entry is silently skipped. A mint / grant / transfer /
burn / release / conversion / investment entry missing its wallet or
amount (or a transfer missing its destination), and a stock split with a
non-positive denominator, leave the state unchanged; a `vesting_release`
whose schedule reference is absent or unknown still adds the released
shares to the position, balance and supply (`addSharesRelease`) and only
skips the schedule update (a partially applied entry); a stock split
whose denominator key is missing is applied with denominator 1 rather
than rejected. -/
theorem c3_invalid_entries_skipped :
    (∀ (s : TokenState) (tx : UnifiedTransaction), structurallyInvalidEntry tx →
      _apply_transaction s tx = s)
    ∧ (∀ (s : TokenState) (tx : UnifiedTransaction), tx.tx_type = .VESTING_RELEASE →
        strTruthy tx.wallet → intTruthy tx.amount →
        ¬(intTruthy tx.reference_id ∧
            dmem (addSharesRelease s tx).vesting_schedules (tx.reference_id.getD 0)) →
        _apply_transaction s tx = addSharesRelease s tx)
    ∧ (∀ (s : TokenState) (tx : UnifiedTransaction) (d : TxData),
        tx.tx_type = .STOCK_SPLIT → tx.data = some d → d.denominator = none →
        _apply_transaction s tx = applySplit s (d.numerator.getD 1) 1) := by
  refine ⟨?_, ?_, ?_⟩
  · intro s tx hinv
    rcases hinv with ⟨hmem, hbad⟩ | ⟨hty, hbad⟩ | ⟨hty, d, hdata, hden⟩
    · have hg : ¬ (strTruthy tx.wallet ∧ intTruthy tx.amount) := by tauto
      simp only [List.mem_cons, List.not_mem_nil, or_false] at hmem
      rcases hmem with hty | hty | hty | hty | hty | hty | hty <;>
        · simp only [_apply_transaction, hty]
          split_ifs <;> first | rfl | tauto
    · simp only [_apply_transaction, hty]
      split_ifs <;> first | rfl | tauto
    · simp only [_apply_transaction, hty, hdata]
      have hnot : ¬ (0 : ℤ) < d.denominator.getD 1 := by omega
      split_ifs <;> rfl
  · intro s tx hty hw ha hnr
    simp only [_apply_transaction, hty]
    split_ifs <;> tauto
  · intro s tx d hty hdata hden
    simp only [_apply_transaction, hty, hdata, hden, Option.getD_none]
    split_ifs with h0
    · rfl
    · omega

/-- Claim C3 counterexample: a mint entry whose amount column is NULL is
structurally invalid, lies inside the fetched range, and reconstruction
neither fails nor returns an error — it returns exactly the state obtained
without that entry (the entry is silently skipped), contradicting the
claimed fail-fast behaviour. -/
theorem c3_counterexample :
    reconstruct_at_slot [exMintTx, exBadMintTx] 1 20 = reconstruct_at_slot [exMintTx] 1 20
    ∧ exBadMintTx.token_id = 1 ∧ exBadMintTx.slot ≤ 20
    ∧ structurallyInvalidEntry exBadMintTx := by
  refine ⟨by decide, by decide, by decide, Or.inl ⟨by decide, Or.inr (by decide)⟩⟩

/-- Claim C3 witness: the amended theorem applied to concrete invalid
entries. -/
theorem c3_witness :
    structurallyInvalidEntry exBadMintTx
    ∧ _apply_transaction (emptyState 0) exBadMintTx = emptyState 0 :=
  ⟨Or.inl ⟨by decide, Or.inr (by decide)⟩,
    c3_invalid_entries_skipped.1 (emptyState 0) exBadMintTx
      (Or.inl ⟨by decide, Or.inr (by decide)⟩)⟩

/-! # Stock-split arithmetic (C4) -/

/-- Claim C4 (amended): a stock split with ratio `n : d`, `d > 0`, applies
one uniform rounding rule to every quantity — each wallet balance, each
position's shares, each vesting schedule's total and released amount, and
the total supply are all replaced by `int(old * r)` where `r` is the
single precomputed binary64 quotient `n / d` — but that rule is
truncate-after-binary64-multiply, not exact integer floor division, and
the two disagree on some inputs (see the counterexample), so the result
does depend on binary64 rounding. -/
theorem c4_split_uniform (s : TokenState) (tx : UnifiedTransaction) (d : TxData)
    (htype : tx.tx_type = .STOCK_SPLIT) (hdata : tx.data = some d)
    (hden : 0 < d.denominator.getD 1) :
    (_apply_transaction s tx).balances
      = s.balances.map (fun kv =>
          (kv.1, pyIntMulFloat kv.2 (flmk (d.numerator.getD 1) (d.denominator.getD 1))))
    ∧ (_apply_transaction s tx).positions
      = s.positions.map (fun kv =>
          (kv.1, { kv.2 with shares := pyIntMulFloat kv.2.shares (flmk (d.numerator.getD 1) (d.denominator.getD 1)) }))
    ∧ (_apply_transaction s tx).vesting_schedules
      = s.vesting_schedules.map (fun kv =>
          (kv.1, { kv.2 with total_amount := pyIntMulFloat kv.2.total_amount (flmk (d.numerator.getD 1) (d.denominator.getD 1)), released_amount := pyIntMulFloat kv.2.released_amount (flmk (d.numerator.getD 1) (d.denominator.getD 1)) }))
    ∧ (_apply_transaction s tx).total_supply
      = pyIntMulFloat s.total_supply (flmk (d.numerator.getD 1) (d.denominator.getD 1))
    ∧ (_apply_transaction s tx).approved_wallets = s.approved_wallets
    ∧ (_apply_transaction s tx).is_paused = s.is_paused := by
  simp only [_apply_transaction, htype, hdata, if_pos hden, applySplit]
  exact ⟨trivial, trivial, trivial, trivial, trivial, trivial⟩

/-- Claim C4 counterexample: a 29:100 split of a 100-share balance yields
28 shares (`int(100 * (29/100))` evaluates the ratio in binary64 as
slightly below 0.29), while exact integer floor division
`floor(100 * 29 / 100)` yields 29 — the stored balance differs from the
claimed exact-floor value. -/
theorem c4_counterexample :
    (_apply_transaction c4State c4SplitTx).balances = [("A", 28)]
    ∧ Int.fdiv (100 * 29) 100 = 29
    ∧ ¬ ((_apply_transaction c4State c4SplitTx).balances
        = [("A", Int.fdiv (100 * 29) 100)]) := by
  refine ⟨by decide, by decide, by decide⟩

/-- Claim C4 witness: the uniformity theorem applied to the concrete
29:100 split. -/
theorem c4_witness :
    c4SplitTx.tx_type = TransactionType.STOCK_SPLIT
    ∧ (0 : ℤ) < (({ numerator := some 29, denominator := some 100 } : TxData)).denominator.getD 1
    ∧ (_apply_transaction c4State c4SplitTx).total_supply
      = pyIntMulFloat c4State.total_supply (flmk 29 100) :=
  by
    refine ⟨by decide, by decide, ?_⟩
    have h := c4_split_uniform c4State c4SplitTx
      { numerator := some 29, denominator := some 100 } (by decide) rfl (by decide)
    have h4 := h.2.2.2.1
    simpa using h4

/-! # Waterfall conservation (C5) -/

theorem b2Tiers_distributed_eq (positions : List WaterfallPosition)
    (fp1 : List (String × (ℤ × String))) (exit_amount : ℤ) :
    (b2Tiers positions fp1 exit_amount).map (·.amount_distributed)
      = (b2Tiers positions fp1 exit_amount).map
          (fun t => (t.payouts.map (·.payout)).sum) := by
  simp [b2Tiers, List.map_map]

/-- Claim C5 (amended): whenever the exit amount exceeds total
preferences (the conversion branch, and the empty-position early return),
the payouts plus `remaining_amount` sum exactly to `exit_amount`; the
restriction is forced because in the preference branch a partially
satisfied tier's truncation residue is dropped — `remaining_amount` is
set to zero even when the tier's rounded payouts sum to less than the
funds available (see the counterexample). -/
theorem c5_waterfall_conservation (positions : List WaterfallPosition) (exit_amount : ℤ)
    (h : totalPreferences positions < exit_amount) :
    (calculate_waterfall positions exit_amount).allPayoutsSum
      + (calculate_waterfall positions exit_amount).remaining_amount = exit_amount := by
  by_cases hpos : positions = []
  · subst hpos
    simp [calculate_waterfall, WaterfallResult.allPayoutsSum]
  · have hbranch : ¬ (exit_amount ≤ totalPreferences positions) := not_le.mpr h
    simp only [calculate_waterfall, if_neg hpos, if_neg hbranch,
      WaterfallResult.allPayoutsSum]
    rw [← b2Tiers_distributed_eq]
    ring

/-- Claim C5 counterexample: two holders with preference 3 each in one
tier and exit amount 5 land in the preference branch; each payout is
`int(5 * (3/6)) = 2`, so the payouts sum to 4 while `remaining_amount` is
0 — `sum(payouts) + remaining_amount = 4 ≠ 5 = exit_amount`, and the
truncation residue of 1 is dropped instead of surfacing in
`remaining_amount`. -/
theorem c5_counterexample :
    (calculate_waterfall [c5X, c5Y] 5).allPayoutsSum = 4
    ∧ (calculate_waterfall [c5X, c5Y] 5).remaining_amount = 0
    ∧ ¬ ((calculate_waterfall [c5X, c5Y] 5).allPayoutsSum
        + (calculate_waterfall [c5X, c5Y] 5).remaining_amount = 5) := by
  refine ⟨by decide, by decide, by decide⟩

/-- Claim C5 witness: conservation at the spec's 300,000 exit scenario
(conversion branch). -/
theorem c5_witness :
    totalPreferences [exCommon, exSeriesA] < 300000
    ∧ (calculate_waterfall [exCommon, exSeriesA] 300000).allPayoutsSum
      + (calculate_waterfall [exCommon, exSeriesA] 300000).remaining_amount = 300000 :=
  ⟨by decide, c5_waterfall_conservation [exCommon, exSeriesA] 300000 (by decide)⟩

/-! # Preference-branch structure (C6) -/

theorem branch1Go_priorities (positions : List WaterfallPosition) :
    ∀ (prios : List ℤ) (r : ℤ),
      ((branch1Go positions r prios).1).map (·.priority) = prios := by
  intro prios
  induction prios with
  | nil => intro r; simp [branch1Go]
  | cons pr rest ih =>
    intro r
    simp only [branch1Go]
    split_ifs <;> simp [ih]

theorem branch1Go_spec (positions : List WaterfallPosition) :
    ∀ (prios : List ℤ) (r : ℤ),
      WaterfallPrefSpec positions r (branch1Go positions r prios).1 := by
  intro prios
  induction prios with
  | nil => intro r; simp [branch1Go, WaterfallPrefSpec]
  | cons pr rest ih =>
    intro r
    simp only [branch1Go]
    split_ifs with h1 h2
    · refine ⟨⟨rfl, Or.inl ⟨h1, rfl, rfl, rfl⟩⟩, ?_⟩
      simpa using ih r
    · refine ⟨⟨rfl, Or.inr (Or.inl ⟨by omega, h2, rfl, rfl, rfl⟩)⟩, ?_⟩
      simpa using ih (r - tierPreference positions pr)
    · refine ⟨⟨rfl, Or.inr (Or.inr ⟨by omega,
        show r < tierPreference positions pr by omega, rfl, rfl, rfl⟩)⟩, ?_⟩
      simpa using ih 0

theorem prefSpec_zero_of_nonpos (positions : List WaterfallPosition) :
    ∀ (ts : List WaterfallTier) (r : ℤ), WaterfallPrefSpec positions r ts → r ≤ 0 →
      ∀ t ∈ ts, ∀ p ∈ t.payouts, p.payout = 0 := by
  intro ts
  induction ts with
  | nil => simp
  | cons t ts ih =>
    intro r hspec hr t' ht' p hp
    simp only [WaterfallPrefSpec] at hspec
    obtain ⟨⟨htp, hcases⟩, hrec⟩ := hspec
    rcases hcases with ⟨h1, hfs, hd, hpay⟩ | ⟨h1, _⟩ | ⟨h1, _⟩
    · rcases List.mem_cons.mp ht' with heq | hmem
      · subst heq
        rw [hpay] at hp
        obtain ⟨q, _, hq⟩ := List.mem_map.mp hp
        rw [← hq]
        rfl
      · exact ih (r - t.amount_distributed) hrec (by omega) t' hmem p hp
    · omega
    · omega

theorem prefSpec_after_unsat (positions : List WaterfallPosition) :
    ∀ (l1 : List WaterfallTier) (r : ℤ) (t : WaterfallTier) (l2 : List WaterfallTier),
      WaterfallPrefSpec positions r (l1 ++ t :: l2) → t.fully_satisfied = false →
      ∀ t' ∈ l2, ∀ p ∈ t'.payouts, p.payout = 0 := by
  intro l1
  induction l1 with
  | nil =>
    intro r t l2 hspec hfs t' ht' p hp
    simp only [List.nil_append, WaterfallPrefSpec] at hspec
    obtain ⟨⟨htp, hcases⟩, hrec⟩ := hspec
    rcases hcases with ⟨h1, _, hd, _⟩ | ⟨_, _, hfs', _⟩ | ⟨h1, h2, _, hd, _⟩
    · exact prefSpec_zero_of_nonpos positions l2 (r - t.amount_distributed) hrec
        (by omega) t' ht' p hp
    · rw [hfs'] at hfs; cases hfs
    · exact prefSpec_zero_of_nonpos positions l2 (r - t.amount_distributed) hrec
        (by omega) t' ht' p hp
  | cons t0 l1 ih =>
    intro r t l2 hspec hfs
    simp only [List.cons_append, WaterfallPrefSpec] at hspec
    exact ih _ t l2 hspec.2 hfs

theorem sortedPriorities_pairwise_lt (positions : List WaterfallPosition) :
    (sortedPriorities positions).Pairwise (· < ·) := by
  have hs : (sortedPriorities positions).Sorted (· ≤ ·) :=
    List.sorted_insertionSort (· ≤ ·) _
  have hn : (sortedPriorities positions).Nodup :=
    ((List.perm_insertionSort (· ≤ ·) _).nodup_iff).mpr (List.nodup_dedup _)
  exact (hs.and hn).imp (fun h => lt_of_le_of_ne h.1 h.2)

/-- Claim C6: in the preference branch (total preferences at or above the
exit amount), tiers are paid strictly in ascending priority order; a tier
whose full preference fits in the remaining funds pays each holder exactly
their preference amount with source `"preference"` and is marked
satisfied; the first tier the funds do not cover distributes exactly the
remaining funds pro-rata by each holder's share of the tier preference
(binary64 product, truncated) with source `"partial_preference"` and is
unsatisfied; every tier below an unsatisfied tier receives zero. The
spec's 80,000-exit example behaves exactly as stated: Series A receives
80,000 as a partial preference and Common receives 0. -/
theorem c6_preference_branch (positions : List WaterfallPosition) (exit_amount : ℤ)
    (hbranch : exit_amount ≤ totalPreferences positions) :
    ((calculate_waterfall positions exit_amount).tiers.map (·.priority)
        = sortedPriorities positions)
    ∧ (((calculate_waterfall positions exit_amount).tiers.map (·.priority)).Pairwise (· < ·))
    ∧ WaterfallPrefSpec positions exit_amount (calculate_waterfall positions exit_amount).tiers
    ∧ (∀ (l1 : List WaterfallTier) (t : WaterfallTier) (l2 : List WaterfallTier),
        (calculate_waterfall positions exit_amount).tiers = l1 ++ t :: l2 →
        t.fully_satisfied = false → ∀ t' ∈ l2, ∀ p ∈ t'.payouts, p.payout = 0)
    ∧ ((calculate_waterfall [exCommon, exSeriesA] 80000).tiers.map
        (fun t => (t.priority, t.fully_satisfied,
          t.payouts.map (fun p => (p.wallet, p.payout, p.payout_source))))
      = [(1, false, [("seriesA", 80000, "partial_preference")]),
         (99, false, [("common", 0, "none")])]) := by
  by_cases hpos : positions = []
  · subst hpos
    refine ⟨by simp [calculate_waterfall, sortedPriorities], ?_, ?_, ?_, by decide⟩
    · simp [calculate_waterfall]
    · simp [calculate_waterfall, WaterfallPrefSpec]
    · intro l1 t l2 heq
      simp [calculate_waterfall] at heq
  · have htiers : (calculate_waterfall positions exit_amount).tiers
        = (branch1Go positions exit_amount (sortedPriorities positions)).1 := by
      simp [calculate_waterfall, if_neg hpos, if_pos hbranch]
    refine ⟨?_, ?_, ?_, ?_, by decide⟩
    · rw [htiers]; exact branch1Go_priorities positions _ _
    · rw [htiers, branch1Go_priorities positions _ _]
      exact sortedPriorities_pairwise_lt positions
    · rw [htiers]; exact branch1Go_spec positions _ _
    · intro l1 t l2 heq hfs
      rw [htiers] at heq
      exact prefSpec_after_unsat positions l1 exit_amount t l2
        (heq ▸ branch1Go_spec positions (sortedPriorities positions) exit_amount) hfs

/-- Claim C6 witness: the preference-branch theorem applied at the spec's
80,000-exit example. -/
theorem c6_witness :
    (80000 : ℤ) ≤ totalPreferences [exCommon, exSeriesA]
    ∧ WaterfallPrefSpec [exCommon, exSeriesA] 80000
        (calculate_waterfall [exCommon, exSeriesA] 80000).tiers :=
  ⟨by decide, (c6_preference_branch [exCommon, exSeriesA] 80000 (by decide)).2.2.1⟩

/-! # Conversion-branch structure (C7) -/

theorem dset_absent {α β : Type} [DecidableEq α] (d : List (α × β)) (k : α) (v : β)
    (h : ∀ kv ∈ d, kv.1 ≠ k) : dset d k v = d ++ [(k, v)] := by
  induction d with
  | nil => rfl
  | cons kv rest ih =>
    obtain ⟨k0, v0⟩ := kv
    have hk0 : k0 ≠ k := h (k0, v0) (List.mem_cons_self _ _)
    simp only [dset, if_neg hk0, List.cons_append, List.cons.injEq, true_and]
    exact ih (fun kv hkv => h kv (List.mem_cons_of_mem _ hkv))

theorem dget_append_absent {α β : Type} [DecidableEq α] (l1 l2 : List (α × β)) (k : α)
    (dflt : β) (h : ∀ kv ∈ l1, kv.1 ≠ k) : dget (l1 ++ l2) k dflt = dget l2 k dflt := by
  induction l1 with
  | nil => rfl
  | cons kv rest ih =>
    obtain ⟨k0, v0⟩ := kv
    have hk0 : k0 ≠ k := h (k0, v0) (List.mem_cons_self _ _)
    simp only [List.cons_append, dget, if_neg hk0]
    exact ih (fun kv hkv => h kv (List.mem_cons_of_mem _ hkv))

theorem dset_append_mid {α β : Type} [DecidableEq α] (l1 l2 : List (α × β)) (k : α)
    (v v' : β) (h : ∀ kv ∈ l1, kv.1 ≠ k) :
    dset (l1 ++ (k, v) :: l2) k v' = l1 ++ (k, v') :: l2 := by
  induction l1 with
  | nil => simp [dset]
  | cons kv rest ih =>
    obtain ⟨k0, v0⟩ := kv
    have hk0 : k0 ≠ k := h (k0, v0) (List.mem_cons_self _ _)
    simp only [List.cons_append, dset, if_neg hk0, List.cons.injEq, true_and]
    exact ih (fun kv hkv => h kv (List.mem_cons_of_mem _ hkv))

theorem foldl_dset_append (f : WaterfallPosition → ℤ × String) :
    ∀ (ps : List WaterfallPosition) (d0 : List (String × (ℤ × String))),
      (ps.map (·.wallet)).Nodup → (∀ p ∈ ps, ∀ kv ∈ d0, kv.1 ≠ p.wallet) →
      ps.foldl (fun fp p => dset fp p.wallet (f p)) d0
        = d0 ++ ps.map (fun p => (p.wallet, f p)) := by
  intro ps
  induction ps with
  | nil => intro d0 _ _; simp
  | cons p rest ih =>
    intro d0 hnodup hdisj
    obtain ⟨hne, htl⟩ : (∀ x ∈ rest, ¬ x.wallet = p.wallet)
        ∧ (List.map (fun x => x.wallet) rest).Nodup := by simpa using hnodup
    simp only [List.foldl_cons, List.map_cons]
    rw [dset_absent d0 p.wallet (f p) (fun kv hkv => hdisj p (List.mem_cons_self _ _) kv hkv)]
    rw [ih (d0 ++ [(p.wallet, f p)]) htl ?_]
    · simp
    · intro q hq kv hkv
      rcases List.mem_append.mp hkv with hkv1 | hkv2
      · exact hdisj q (List.mem_cons_of_mem _ hq) kv hkv1
      · have hkv' : kv = (p.wallet, f p) := by simpa using hkv2
        subst hkv'
        intro hcontra
        exact hne q hq (by rw [← hcontra])

theorem dget_wallet_map (f : WaterfallPosition → ℤ × String) (dflt : ℤ × String) :
    ∀ (ps : List WaterfallPosition) (p : WaterfallPosition),
      (ps.map (·.wallet)).Nodup → p ∈ ps →
      dget (ps.map (fun q => (q.wallet, f q))) p.wallet dflt = f p := by
  intro ps
  induction ps with
  | nil => intro p _ hp; cases hp
  | cons q rest ih =>
    intro p hnodup hp
    obtain ⟨hne, htl⟩ : (∀ x ∈ rest, ¬ x.wallet = q.wallet)
        ∧ (List.map (fun x => x.wallet) rest).Nodup := by simpa using hnodup
    rcases List.mem_cons.mp hp with heq | hmem
    · subst heq; simp [dget]
    · have hneq : q.wallet ≠ p.wallet := fun hcontra => hne p hmem hcontra.symm
      simp only [List.map_cons, dget, if_neg hneq]
      exact ih p htl hmem

theorem foldl_cond_dset (f h : WaterfallPosition → ℤ × String) :
    ∀ (ps : List WaterfallPosition) (pre : List (String × (ℤ × String))),
      (ps.map (·.wallet)).Nodup → (∀ p ∈ ps, ∀ kv ∈ pre, kv.1 ≠ p.wallet) →
      ps.foldl (fun fp1 p =>
          if (dget fp1 p.wallet (0, "")).2 = "common" then dset fp1 p.wallet (h p) else fp1)
        (pre ++ ps.map (fun q => (q.wallet, f q)))
        = pre ++ ps.map (fun q => (q.wallet, if (f q).2 = "common" then h q else f q)) := by
  intro ps
  induction ps with
  | nil => intro pre _ _; simp
  | cons p rest ih =>
    intro pre hnodup hdisj
    obtain ⟨hnpw, hnptl⟩ : (∀ x ∈ rest, ¬ x.wallet = p.wallet)
        ∧ (List.map (fun x => x.wallet) rest).Nodup := by simpa using hnodup
    have hpre : ∀ kv ∈ pre, kv.1 ≠ p.wallet :=
      fun kv hkv => hdisj p (List.mem_cons_self _ _) kv hkv
    have hget : dget (pre ++ (p.wallet, f p) :: rest.map (fun q => (q.wallet, f q)))
        p.wallet (0, "") = f p := by
      rw [dget_append_absent _ _ _ _ hpre]; simp [dget]
    have hdisj' : ∀ q ∈ rest, ∀ kv ∈ pre ++ [(p.wallet, (if (f p).2 = "common" then h p else f p))],
        kv.1 ≠ q.wallet := by
      intro q hq kv hkv
      rcases List.mem_append.mp hkv with hkv1 | hkv2
      · exact hdisj q (List.mem_cons_of_mem _ hq) kv hkv1
      · have hkv' : kv = (p.wallet, (if (f p).2 = "common" then h p else f p)) := by simpa using hkv2
        subst hkv'
        intro hcontra
        exact hnpw q hq (by rw [← hcontra])
    simp only [List.map_cons, List.foldl_cons, List.cons_append] at *
    by_cases hcom : (f p).2 = "common"
    · rw [show (pre ++ (p.wallet, f p) :: rest.map (fun q => (q.wallet, f q)))
          = pre ++ (p.wallet, f p) :: rest.map (fun q => (q.wallet, f q)) from rfl] at *
      rw [if_pos (by rw [hget]; exact hcom)]
      rw [dset_append_mid pre _ p.wallet (f p) (h p) hpre]
      have := ih (pre ++ [(p.wallet, h p)]) hnptl ?_
      · rw [show pre ++ (p.wallet, h p) :: rest.map (fun q => (q.wallet, f q))
            = (pre ++ [(p.wallet, h p)]) ++ rest.map (fun q => (q.wallet, f q)) by simp] at *
        rw [this]
        simp [hcom]
      · intro q hq kv hkv
        have := hdisj' q hq kv
        simp only [if_pos hcom] at this
        exact this hkv
    · rw [if_neg (by rw [hget]; exact hcom)]
      have := ih (pre ++ [(p.wallet, f p)]) hnptl ?_
      · rw [show pre ++ (p.wallet, f p) :: rest.map (fun q => (q.wallet, f q))
            = (pre ++ [(p.wallet, f p)]) ++ rest.map (fun q => (q.wallet, f q)) by simp] at *
        rw [this]
        simp [hcom]
      · intro q hq kv hkv
        have := hdisj' q hq kv
        simp only [if_neg hcom] at this
        exact this hkv

theorem b2decision_common (e t : ℤ) (p : WaterfallPosition)
    (h : p.preference_amount ≤ 0) : b2decision e t p = (0, "common") := by
  have hn : ¬ 0 < p.preference_amount := by omega
  simp [b2decision, hn]

theorem b2decision_prefcase (e t : ℤ) (p : WaterfallPosition)
    (h : 0 < p.preference_amount) :
    b2decision e t p =
      if p.preference_amount < convertedValue e t p
      then (convertedValue e t p, "conversion")
      else (p.preference_amount, "preference") := by
  simp only [b2decision, if_pos h]
  rfl

theorem b2decision_pref_bool (e t : ℤ) (p : WaterfallPosition) :
    decide ((b2decision e t p).2 = "preference")
      = (decide (0 < p.preference_amount)
          && !decide (p.preference_amount < convertedValue e t p)) := by
  by_cases h1 : 0 < p.preference_amount
  · rw [b2decision_prefcase e t p h1]
    by_cases h2 : p.preference_amount < convertedValue e t p
    · simp [h1, h2]
    · simp [h1, h2]
  · rw [b2decision_common e t p (by omega)]
    simp [h1]

theorem b2decision_conv_bool (e t : ℤ) (p : WaterfallPosition) :
    decide ((b2decision e t p).2 = "conversion")
      = (decide (0 < p.preference_amount)
          && decide (p.preference_amount < convertedValue e t p)) := by
  by_cases h1 : 0 < p.preference_amount
  · rw [b2decision_prefcase e t p h1]
    by_cases h2 : p.preference_amount < convertedValue e t p
    · simp [h1, h2]
    · simp [h1, h2]
  · rw [b2decision_common e t p (by omega)]
    simp [h1]

theorem b2decision_common_bool (e t : ℤ) (p : WaterfallPosition) :
    decide ((b2decision e t p).2 = "common") = decide (p.preference_amount ≤ 0) := by
  by_cases h1 : 0 < p.preference_amount
  · rw [b2decision_prefcase e t p h1]
    by_cases h2 : p.preference_amount < convertedValue e t p
    · simp [h2]
      omega
    · simp [h2]
      omega
  · rw [b2decision_common e t p (by omega)]
    simp
    omega

theorem b2PrefTaken_map (g : WaterfallPosition → ℤ × String) (ps : List WaterfallPosition) :
    b2PrefTaken (ps.map (fun p => (p.wallet, g p)))
      = ((ps.filter (fun p => decide ((g p).2 = "preference"))).map (fun p => (g p).1)).sum := by
  simp only [b2PrefTaken, List.filter_map, List.map_map]
  rfl

theorem b2ConvTaken_map (g : WaterfallPosition → ℤ × String) (ps : List WaterfallPosition) :
    b2ConvTaken (ps.map (fun p => (p.wallet, g p)))
      = ((ps.filter (fun p => decide ((g p).2 = "conversion"))).map (fun p => (g p).1)).sum := by
  simp only [b2ConvTaken, List.filter_map, List.map_map]
  rfl

theorem b2CommonShares_map (g : WaterfallPosition → ℤ × String)
    (ps : List WaterfallPosition) (hnodup : (ps.map (·.wallet)).Nodup) :
    b2CommonShares ps (ps.map (fun p => (p.wallet, g p)))
      = ((ps.filter (fun p => decide ((g p).2 = "common"))).map (·.shares)).sum := by
  unfold b2CommonShares
  congr 1
  congr 1
  apply List.filter_congr
  intro p hp
  rw [dget_wallet_map g (0, "") ps p hnodup hp]

theorem filter_wallet_unique :
    ∀ (ps : List WaterfallPosition) (p : WaterfallPosition),
      (ps.map (·.wallet)).Nodup → p ∈ ps →
      ps.filter (fun q => decide (q.wallet = p.wallet)) = [p] := by
  intro ps
  induction ps with
  | nil => intro p _ hp; cases hp
  | cons q rest ih =>
    intro p hnodup hp
    obtain ⟨hne, htl⟩ : (∀ x ∈ rest, ¬ x.wallet = q.wallet)
        ∧ (List.map (fun x => x.wallet) rest).Nodup := by simpa using hnodup
    rcases List.mem_cons.mp hp with heq | hmem
    · subst heq
      have hr : rest.filter (fun q => decide (q.wallet = p.wallet)) = [] := by
        rw [List.filter_eq_nil_iff]
        intro y hy
        simpa using fun hcontra => hne y hy hcontra
      simp [List.filter_cons, hr]
    · have hneq : ¬ (q.wallet = p.wallet) := fun hcontra => hne p hmem hcontra.symm
      simp only [List.filter_cons, decide_eq_true_eq, if_neg hneq]
      exact ih p htl hmem

theorem flatMap_if_single {γ : Type} (v : List γ) :
    ∀ (prios : List ℤ) (x : ℤ), prios.Nodup → x ∈ prios →
      prios.flatMap (fun pr => if pr = x then v else []) = v := by
  intro prios
  induction prios with
  | nil => intro x _ hx; cases hx
  | cons pr rest ih =>
    intro x hnodup hx
    obtain ⟨hne, htl⟩ := List.nodup_cons.mp hnodup
    rcases List.mem_cons.mp hx with heq | hmem
    · subst heq
      have hrest : rest.flatMap (fun p => if p = x then v else []) = [] := by
        rw [List.flatMap_eq_nil_iff]
        intro y hy
        have hyx : ¬ (y = x) := fun hcontra => hne (hcontra ▸ hy)
        rw [if_neg hyx]
      simp [List.flatMap_cons, hrest]
    · have hneq : pr ≠ x := fun hcontra => hne (hcontra ▸ hmem)
      simp only [List.flatMap_cons, if_neg hneq, List.nil_append]
      exact ih x htl hmem

theorem sortedPriorities_nodup (positions : List WaterfallPosition) :
    (sortedPriorities positions).Nodup :=
  ((List.perm_insertionSort (· ≤ ·) _).nodup_iff).mpr (List.nodup_dedup _)

theorem mem_sortedPriorities (positions : List WaterfallPosition) (p : WaterfallPosition)
    (hp : p ∈ positions) : p.priority ∈ sortedPriorities positions := by
  unfold sortedPriorities
  rw [List.mem_insertionSort, List.mem_dedup]
  exact List.mem_map_of_mem _ hp

theorem b2Tiers_rows (positions : List WaterfallPosition)
    (fp1 : List (String × (ℤ × String))) (e : ℤ) (p : WaterfallPosition)
    (hnodup : (positions.map (·.wallet)).Nodup) (hp : p ∈ positions) :
    ((b2Tiers positions fp1 e).flatMap (·.payouts)).filter
        (fun x => decide (x.wallet = p.wallet))
      = [mkPayout p (dget fp1 p.wallet (0, "")).1 (dget fp1 p.wallet (0, "")).2] := by
  rw [b2Tiers, List.flatMap_map, List.filter_flatMap]
  have hinner : ∀ pr : ℤ,
      (((tierPositions positions pr).map (fun q =>
          mkPayout q (dget fp1 q.wallet (0, "")).1 (dget fp1 q.wallet (0, "")).2)).filter
        (fun x => decide (x.wallet = p.wallet)))
      = if pr = p.priority
        then [mkPayout p (dget fp1 p.wallet (0, "")).1 (dget fp1 p.wallet (0, "")).2]
        else [] := by
    intro pr
    rw [List.filter_map]
    have hcomp : ((fun x => decide (x.wallet = p.wallet)) ∘ (fun q =>
        mkPayout q (dget fp1 q.wallet (0, "")).1 (dget fp1 q.wallet (0, "")).2))
        = fun q => decide (q.wallet = p.wallet) := rfl
    rw [hcomp]
    unfold tierPositions
    rw [List.filter_comm]
    rw [filter_wallet_unique positions p hnodup hp]
    by_cases hpr : p.priority = pr
    · simp [List.filter_cons, hpr]
    · have hpr' : ¬ (pr = p.priority) := fun hcontra => hpr hcontra.symm
      simp [List.filter_cons, hpr, hpr']
  calc (sortedPriorities positions).flatMap (fun pr =>
          (((tierPositions positions pr).map (fun q =>
            mkPayout q (dget fp1 q.wallet (0, "")).1 (dget fp1 q.wallet (0, "")).2)).filter
            (fun x => decide (x.wallet = p.wallet))))
      = (sortedPriorities positions).flatMap (fun pr =>
          if pr = p.priority
          then [mkPayout p (dget fp1 p.wallet (0, "")).1 (dget fp1 p.wallet (0, "")).2]
          else []) := by
        rw [show (fun pr =>
            (((tierPositions positions pr).map (fun q =>
              mkPayout q (dget fp1 q.wallet (0, "")).1 (dget fp1 q.wallet (0, "")).2)).filter
              (fun x => decide (x.wallet = p.wallet))))
          = (fun pr : ℤ =>
            if pr = p.priority
            then [mkPayout p (dget fp1 p.wallet (0, "")).1 (dget fp1 p.wallet (0, "")).2]
            else []) from funext hinner]
    _ = [mkPayout p (dget fp1 p.wallet (0, "")).1 (dget fp1 p.wallet (0, "")).2] :=
        flatMap_if_single _ (sortedPriorities positions) p.priority
          (sortedPriorities_nodup positions) (mem_sortedPriorities positions p hp)

theorem b2PrefTaken_claim (positions : List WaterfallPosition) (e : ℤ) :
    b2PrefTaken (positions.map (fun p =>
        (p.wallet, b2decision e (totalShares positions) p)))
      = c7PrefTaken positions e := by
  rw [b2PrefTaken_map]
  unfold c7PrefTaken
  rw [show (fun p => decide ((b2decision e (totalShares positions) p).2 = "preference"))
      = (fun p => decide (0 < p.preference_amount)
          && !decide (p.preference_amount < convertedValue e (totalShares positions) p))
    from funext (b2decision_pref_bool e (totalShares positions))]
  congr 1
  apply List.map_congr_left
  intro p hp
  obtain ⟨_, hpred⟩ := List.mem_filter.mp hp
  simp only [Bool.and_eq_true, Bool.not_eq_true', decide_eq_true_eq,
    decide_eq_false_iff_not] at hpred
  rw [b2decision_prefcase e (totalShares positions) p hpred.1, if_neg hpred.2]

theorem b2ConvTaken_claim (positions : List WaterfallPosition) (e : ℤ) :
    b2ConvTaken (positions.map (fun p =>
        (p.wallet, b2decision e (totalShares positions) p)))
      = c7ConvTaken positions e := by
  rw [b2ConvTaken_map]
  unfold c7ConvTaken
  rw [show (fun p => decide ((b2decision e (totalShares positions) p).2 = "conversion"))
      = (fun p => decide (0 < p.preference_amount)
          && decide (p.preference_amount < convertedValue e (totalShares positions) p))
    from funext (b2decision_conv_bool e (totalShares positions))]
  congr 1
  apply List.map_congr_left
  intro p hp
  obtain ⟨_, hpred⟩ := List.mem_filter.mp hp
  simp only [Bool.and_eq_true, decide_eq_true_eq] at hpred
  rw [b2decision_prefcase e (totalShares positions) p hpred.1, if_pos hpred.2]

theorem b2CommonShares_claim (positions : List WaterfallPosition) (e : ℤ)
    (hnodup : (positions.map (·.wallet)).Nodup) :
    b2CommonShares positions (positions.map (fun p =>
        (p.wallet, b2decision e (totalShares positions) p)))
      = c7CommonShares positions := by
  rw [b2CommonShares_map _ _ hnodup]
  unfold c7CommonShares
  rw [show (fun p => decide ((b2decision e (totalShares positions) p).2 = "common"))
      = (fun p : WaterfallPosition => decide (p.preference_amount ≤ 0))
    from funext (b2decision_common_bool e (totalShares positions))]

/-- Claim C7 (amended): in the conversion branch (exit amount above total
preferences), provided each wallet holds a single position, every holder
with a positive preference independently receives the greater of the
fixed preference and the converted pro-rata value
`int(exit_amount * shares / total_shares)` — a binary64 quotient truncated
toward zero, which can differ from exact integer floor division for large
amounts (see the counterexample) — with ties resolved in favour of the
preference; holders without a positive preference split the funds left
after all preference and conversion payouts pro-rata by shares, again
through the binary64 quotient. The spec's 300,000-exit example behaves
exactly as stated: Series A takes its 100,000 preference (the conversion
value ties) and Common receives the remaining 200,000. -/
theorem c7_conversion_branch (positions : List WaterfallPosition) (exit_amount : ℤ)
    (hbranch : totalPreferences positions < exit_amount)
    (hnodup : (positions.map (·.wallet)).Nodup) :
    (∀ p ∈ positions, 0 < p.preference_amount →
      (calculate_waterfall positions exit_amount).rowsFor p.wallet
        = [mkPayout p
            (if p.preference_amount < convertedValue exit_amount (totalShares positions) p
             then convertedValue exit_amount (totalShares positions) p
             else p.preference_amount)
            (if p.preference_amount < convertedValue exit_amount (totalShares positions) p
             then "conversion" else "preference")])
    ∧ (∀ p ∈ positions, p.preference_amount ≤ 0 →
      (calculate_waterfall positions exit_amount).rowsFor p.wallet
        = [mkPayout p
            (if 0 < c7CommonShares positions
             then pyIntMulDiv
               (exit_amount - c7PrefTaken positions exit_amount
                 - c7ConvTaken positions exit_amount)
               p.shares (c7CommonShares positions)
             else 0)
            "common"])
    ∧ ((calculate_waterfall [exCommon, exSeriesA] 300000).tiers.map
        (fun t => (t.priority, t.payouts.map (fun q => (q.wallet, q.payout, q.payout_source))))
      = [(1, [("seriesA", 100000, "preference")]),
         (99, [("common", 200000, "common")])]) := by
  by_cases hpos : positions = []
  · subst hpos
    exact ⟨by simp, by simp, by decide⟩
  · have hbranch' : ¬ (exit_amount ≤ totalPreferences positions) := not_le.mpr hbranch
    have hfp0 : b2FirstPass exit_amount (totalShares positions) positions
        = positions.map (fun p =>
            (p.wallet, b2decision exit_amount (totalShares positions) p)) := by
      unfold b2FirstPass
      simpa using foldl_dset_append
        (b2decision exit_amount (totalShares positions)) positions [] hnodup (by simp)
    have hfp1 : b2SecondPass positions
        (positions.map (fun p =>
          (p.wallet, b2decision exit_amount (totalShares positions) p)))
        (exit_amount - c7PrefTaken positions exit_amount - c7ConvTaken positions exit_amount)
        (c7CommonShares positions)
        = positions.map (fun q => (q.wallet,
            if (b2decision exit_amount (totalShares positions) q).2 = "common"
            then ((if 0 < c7CommonShares positions
                   then pyIntMulDiv
                     (exit_amount - c7PrefTaken positions exit_amount
                       - c7ConvTaken positions exit_amount)
                     q.shares (c7CommonShares positions)
                   else 0), "common")
            else b2decision exit_amount (totalShares positions) q)) := by
      unfold b2SecondPass
      simpa using foldl_cond_dset
        (b2decision exit_amount (totalShares positions))
        (fun q => ((if 0 < c7CommonShares positions
          then pyIntMulDiv
            (exit_amount - c7PrefTaken positions exit_amount
              - c7ConvTaken positions exit_amount)
            q.shares (c7CommonShares positions)
          else 0), "common"))
        positions [] hnodup (by simp)
    have htiers : (calculate_waterfall positions exit_amount).tiers
        = b2Tiers positions
            (positions.map (fun q => (q.wallet,
              if (b2decision exit_amount (totalShares positions) q).2 = "common"
              then ((if 0 < c7CommonShares positions
                     then pyIntMulDiv
                       (exit_amount - c7PrefTaken positions exit_amount
                         - c7ConvTaken positions exit_amount)
                       q.shares (c7CommonShares positions)
                     else 0), "common")
              else b2decision exit_amount (totalShares positions) q)))
            exit_amount := by
      simp only [calculate_waterfall, if_neg hpos, if_neg hbranch']
      rw [hfp0, b2PrefTaken_claim, b2ConvTaken_claim, b2CommonShares_claim _ _ hnodup, hfp1]
    have hrows : ∀ p ∈ positions,
        (calculate_waterfall positions exit_amount).rowsFor p.wallet
          = [mkPayout p
              (if (b2decision exit_amount (totalShares positions) p).2 = "common"
               then ((if 0 < c7CommonShares positions
                      then pyIntMulDiv
                        (exit_amount - c7PrefTaken positions exit_amount
                          - c7ConvTaken positions exit_amount)
                        p.shares (c7CommonShares positions)
                      else 0), "common")
               else b2decision exit_amount (totalShares positions) p).1
              (if (b2decision exit_amount (totalShares positions) p).2 = "common"
               then ((if 0 < c7CommonShares positions
                      then pyIntMulDiv
                        (exit_amount - c7PrefTaken positions exit_amount
                          - c7ConvTaken positions exit_amount)
                        p.shares (c7CommonShares positions)
                      else 0), "common")
               else b2decision exit_amount (totalShares positions) p).2] := by
      intro p hp
      unfold WaterfallResult.rowsFor
      rw [htiers, b2Tiers_rows positions _ exit_amount p hnodup hp,
        dget_wallet_map _ (0, "") positions p hnodup hp]
    refine ⟨?_, ?_, by decide⟩
    · intro p hp hpref
      rw [hrows p hp]
      rw [b2decision_prefcase exit_amount (totalShares positions) p hpref]
      by_cases h2 : p.preference_amount < convertedValue exit_amount (totalShares positions) p
      · simp [h2]
      · simp [h2]
    · intro p hp hpref
      rw [hrows p hp]
      rw [b2decision_common exit_amount (totalShares positions) p hpref]
      simp

/-- Claim C7 counterexample: one preferred holder (`P`, one share,
preference 1) and one common holder (`C`, two shares) with exit amount
10^17 land in the conversion branch; the claimed converted value is the
exact floor `floor(10^17 * 1 / 3) = 33333333333333333`, but the source's
binary64 quotient truncates to 33333333333333332, so `P` receives one
unit less than the claim states. -/
theorem c7_counterexample :
    ((calculate_waterfall [c7P, c7C] (10 ^ 17)).rowsFor "P").map (·.payout)
      = [33333333333333332]
    ∧ Int.fdiv (10 ^ 17 * 1) 3 = 33333333333333333
    ∧ ¬ (((calculate_waterfall [c7P, c7C] (10 ^ 17)).rowsFor "P").map (·.payout)
        = [Int.fdiv (10 ^ 17 * c7P.shares) (totalShares [c7P, c7C])]) := by
  refine ⟨by decide, by decide, by decide⟩

/-- Claim C7 witness: the conversion-branch theorem applied at the spec's
300,000-exit example. -/
theorem c7_witness :
    totalPreferences [exCommon, exSeriesA] < 300000
    ∧ ([exCommon, exSeriesA].map (·.wallet)).Nodup
    ∧ ((calculate_waterfall [exCommon, exSeriesA] 300000).tiers.map
        (fun t => (t.priority, t.payouts.map (fun q => (q.wallet, q.payout, q.payout_source))))
      = [(1, [("seriesA", 100000, "preference")]),
         (99, [("common", 200000, "common")])]) :=
  ⟨by decide, by decide,
    (c7_conversion_branch [exCommon, exSeriesA] 300000 (by decide) (by decide)).2.2⟩

/-! # Vesting math (C8) -/

theorem interval_seconds_pos (s : VestingSchedule) : 0 < s.interval_seconds := by
  unfold VestingSchedule.interval_seconds
  split_ifs <;> norm_num

theorem total_intervals_pos (s : VestingSchedule) : 1 ≤ s.total_intervals := by
  simp only [VestingSchedule.total_intervals]
  split_ifs with h
  · exact le_refl 1
  · exact le_max_left 1 _

theorem fdiv_le_fdiv_right {a b c : ℤ} (hab : a ≤ b) (hc : 0 < c) :
    a.fdiv c ≤ b.fdiv c := by
  rw [Int.fdiv_eq_ediv a (le_of_lt hc), Int.fdiv_eq_ediv b (le_of_lt hc)]
  exact Int.ediv_le_ediv hc hab

theorem total_intervals_eq (s : VestingSchedule)
    (hcd : s.cliff_seconds ≤ s.duration_seconds) :
    s.total_intervals
      = max 1 (Int.fdiv (s.duration_seconds - s.cliff_seconds) s.interval_seconds) := by
  simp only [VestingSchedule.total_intervals]
  split_ifs with h
  · have hz : s.duration_seconds - s.cliff_seconds = 0 := by omega
    rw [hz, Int.zero_fdiv]
    rfl
  · rfl

theorem amount_per_interval_eq (s : VestingSchedule) :
    s.amount_per_interval = Int.fdiv s.total_amount s.total_intervals := by
  unfold VestingSchedule.amount_per_interval
  rw [if_neg (by have := total_intervals_pos s; omega)]

theorem remainder_eq (s : VestingSchedule) :
    s.remainder = Int.fmod s.total_amount s.total_intervals := by
  unfold VestingSchedule.remainder
  rw [if_neg (by have := total_intervals_pos s; omega)]

/-- Claim C8 (amended): for an unrevoked, unterminated schedule with
`0 ≤ cliff_seconds ≤ duration_seconds` and a nonnegative total,
`calculate_vested` returns 0 strictly before the cliff, exactly
`total_amount` at or after the full duration, and in between
`amount_per_interval * intervals_elapsed` plus one extra unit for each
elapsed interval among the final `remainder` intervals, with
`total_intervals = max(1, (duration - cliff) // interval_seconds)`,
`amount_per_interval = total_amount // total_intervals` and
`remainder = total_amount % total_intervals`; the interval amounts sum to
exactly `total_amount`. The bounds on the cliff are forced: the source
checks `elapsed >= duration` before the cliff, so a schedule whose cliff
exceeds its duration returns `total_amount` at instants before the cliff
(see the counterexample). The spec's 100-token/7-interval example vests
42 at three intervals and gains the remainder only at intervals 6 and 7. -/
theorem c8_interval_vesting (s : VestingSchedule)
    (hterm : s.vested_at_termination = none) (hrev : s.revoked = false)
    (hc0 : 0 ≤ s.cliff_seconds) (hcd : s.cliff_seconds ≤ s.duration_seconds)
    (htot : 0 ≤ s.total_amount) :
    s.total_intervals
      = max 1 (Int.fdiv (s.duration_seconds - s.cliff_seconds) s.interval_seconds)
    ∧ s.amount_per_interval = Int.fdiv s.total_amount s.total_intervals
    ∧ s.remainder = Int.fmod s.total_amount s.total_intervals
    ∧ s.amount_per_interval * s.total_intervals + s.remainder = s.total_amount
    ∧ (∀ elapsed : ℤ, elapsed < s.cliff_seconds → s.calculate_vested elapsed = 0)
    ∧ (∀ elapsed : ℤ, s.duration_seconds ≤ elapsed →
        s.calculate_vested elapsed = s.total_amount)
    ∧ (∀ elapsed : ℤ, s.cliff_seconds ≤ elapsed → elapsed < s.duration_seconds →
        s.calculate_vested elapsed
          = s.amount_per_interval
              * (Int.fdiv (elapsed - s.cliff_seconds) s.interval_seconds)
            + (if s.total_intervals - s.remainder
                  < Int.fdiv (elapsed - s.cliff_seconds) s.interval_seconds
               then Int.fdiv (elapsed - s.cliff_seconds) s.interval_seconds
                 - (s.total_intervals - s.remainder)
               else 0))
    ∧ (exSched.calculate_vested 180 = 42 ∧ exSched.calculate_vested 300 = 70
        ∧ exSched.calculate_vested 360 = 85 ∧ exSched.calculate_vested 420 = 100) := by
  have hs := interval_seconds_pos s
  have hti := total_intervals_pos s
  have hdm := Int.fdiv_add_fmod s.total_amount s.total_intervals
  refine ⟨total_intervals_eq s hcd, amount_per_interval_eq s, remainder_eq s, ?_, ?_, ?_, ?_,
    by refine ⟨by decide, by decide, by decide, by decide⟩⟩
  · rw [amount_per_interval_eq, remainder_eq]
    linarith [hdm, mul_comm s.total_intervals (Int.fdiv s.total_amount s.total_intervals)]
  · intro elapsed hlt
    simp only [VestingSchedule.calculate_vested, hterm, hrev, Bool.false_eq_true, if_false]
    have h1 : elapsed < s.duration_seconds := by omega
    split_ifs <;> first | rfl | omega
  · intro elapsed hge
    simp only [VestingSchedule.calculate_vested, hterm, hrev, Bool.false_eq_true, if_false]
    have h1 : ¬ elapsed < 0 := by omega
    split_ifs <;> first | rfl | omega
  · intro elapsed h1 h2
    simp only [VestingSchedule.calculate_vested, hterm, hrev, Bool.false_eq_true, if_false]
    rw [if_neg (show ¬ elapsed < 0 by omega), if_neg (show ¬ s.duration_seconds ≤ elapsed by omega),
      if_neg (show ¬ elapsed < s.cliff_seconds by omega),
      if_neg (show ¬ s.total_intervals = 0 by omega)]
    have hie0 : 0 ≤ Int.fdiv (elapsed - s.cliff_seconds) s.interval_seconds :=
      Int.fdiv_nonneg (by omega) (le_of_lt hs)
    have hiet : Int.fdiv (elapsed - s.cliff_seconds) s.interval_seconds ≤ s.total_intervals := by
      have hm : Int.fdiv (elapsed - s.cliff_seconds) s.interval_seconds
          ≤ Int.fdiv (s.duration_seconds - s.cliff_seconds) s.interval_seconds :=
        fdiv_le_fdiv_right (by omega) hs
      have := total_intervals_eq s hcd
      have hmax : Int.fdiv (s.duration_seconds - s.cliff_seconds) s.interval_seconds
          ≤ s.total_intervals := by
        rw [this]; exact le_max_right 1 _
      omega
    have hap0 : 0 ≤ s.amount_per_interval := by
      rw [amount_per_interval_eq]
      exact Int.fdiv_nonneg htot (by omega)
    have hrem0 : 0 ≤ s.remainder := by
      rw [remainder_eq]
      exact Int.fmod_nonneg htot (by omega)
    have htotal : s.amount_per_interval * s.total_intervals + s.remainder = s.total_amount := by
      rw [amount_per_interval_eq, remainder_eq]
      linarith [hdm, mul_comm s.total_intervals (Int.fdiv s.total_amount s.total_intervals)]
    have hmul : s.amount_per_interval * (Int.fdiv (elapsed - s.cliff_seconds) s.interval_seconds)
        ≤ s.amount_per_interval * s.total_intervals :=
      mul_le_mul_of_nonneg_left hiet hap0
    split_ifs with hextra
    · rw [min_eq_left (by linarith)]
    · rw [min_eq_left (by linarith)]
      exact (add_zero _).symm

/-- Claim C8 counterexample: a schedule whose cliff (600 s) exceeds its
duration (300 s) returns the full 100 tokens at elapsed 400 s, an instant
strictly before the cliff — the claimed "0 before the cliff" fails because
the source tests `elapsed >= duration` first. -/
theorem c8_counterexample :
    c8BadSched.calculate_vested 400 = 100
    ∧ (400 : ℤ) < c8BadSched.cliff_seconds
    ∧ c8BadSched.revoked = false
    ∧ c8BadSched.vested_at_termination = none
    ∧ ¬ (c8BadSched.calculate_vested 400 = 0) := by
  refine ⟨by decide, by decide, by decide, by decide, by decide⟩

/-- Claim C8 witness: the interval-vesting theorem applied to the spec's
100-token, 7-interval schedule. -/
theorem c8_witness :
    exSched.vested_at_termination = none ∧ exSched.revoked = false
    ∧ (0 : ℤ) ≤ exSched.cliff_seconds
    ∧ exSched.cliff_seconds ≤ exSched.duration_seconds
    ∧ (0 : ℤ) ≤ exSched.total_amount
    ∧ exSched.amount_per_interval * exSched.total_intervals + exSched.remainder
        = exSched.total_amount :=
  ⟨by decide, by decide, by decide, by decide, by decide,
    (c8_interval_vesting exSched (by decide) (by decide) (by decide) (by decide)
      (by decide)).2.2.2.1⟩

/-! # Dilution rounds (C9) -/

theorem dilutionStep_price (so_far pre : ℤ) :
    (if (if 0 < so_far then Int.fdiv pre so_far else 1) ≤ 0 then 1
     else (if 0 < so_far then Int.fdiv pre so_far else 1))
      = dilutionSpecPrice pre so_far := by
  unfold dilutionSpecPrice
  by_cases h : 0 < so_far
  · simp only [if_pos h]
    omega
  · simp only [if_neg h]
    norm_num

theorem dilution_fold_spec :
    ∀ (rounds : List SimulatedRound) (so_far val : ℤ) (acc : List NewInvestorPosition),
      (rounds.foldl dilutionStep (so_far, val, acc)).1
          = (dilutionSpecGo so_far val rounds).1
      ∧ (rounds.foldl dilutionStep (so_far, val, acc)).2.1
          = (dilutionSpecGo so_far val rounds).2.1
      ∧ (rounds.foldl dilutionStep (so_far, val, acc)).2.2.map
            (fun i => (i.price_per_share, i.shares_received))
          = acc.map (fun i => (i.price_per_share, i.shares_received))
            ++ (dilutionSpecGo so_far val rounds).2.2
      ∧ (rounds.foldl dilutionStep (so_far, val, acc)).2.2.map (·.round_name)
          = acc.map (·.round_name) ++ rounds.map (·.name)
      ∧ (rounds.foldl dilutionStep (so_far, val, acc)).2.2.map (·.amount_invested)
          = acc.map (·.amount_invested) ++ rounds.map (·.amount_raised) := by
  intro rounds
  induction rounds with
  | nil => intro so_far val acc; simp [dilutionSpecGo]
  | cons r rest ih =>
    intro so_far val acc
    have hstep : dilutionStep (so_far, val, acc) r
        = (so_far + Int.fdiv r.amount_raised (dilutionSpecPrice r.pre_money_valuation so_far),
           r.post_money_valuation,
           acc ++ [{ round_name := r.name, amount_invested := r.amount_raised,
                     shares_received :=
                       Int.fdiv r.amount_raised (dilutionSpecPrice r.pre_money_valuation so_far),
                     price_per_share := dilutionSpecPrice r.pre_money_valuation so_far }]) := by
      simp only [dilutionStep]
      rw [dilutionStep_price so_far r.pre_money_valuation]
    simp only [List.foldl_cons, hstep, dilutionSpecGo]
    have := ih (so_far + Int.fdiv r.amount_raised (dilutionSpecPrice r.pre_money_valuation so_far))
      r.post_money_valuation
      (acc ++ [{ round_name := r.name, amount_invested := r.amount_raised,
                 shares_received :=
                   Int.fdiv r.amount_raised (dilutionSpecPrice r.pre_money_valuation so_far),
                 price_per_share := dilutionSpecPrice r.pre_money_valuation so_far }])
    refine ⟨this.1, this.2.1, ?_, ?_, ?_⟩
    · rw [this.2.2.1]; simp
    · rw [this.2.2.2.1]; simp
    · rw [this.2.2.2.2]; simp

theorem dilutionSpecGo_sum :
    ∀ (rounds : List SimulatedRound) (so_far val : ℤ),
      (dilutionSpecGo so_far val rounds).1
        = so_far + (((dilutionSpecGo so_far val rounds).2.2).map (·.2)).sum := by
  intro rounds
  induction rounds with
  | nil => intro so_far val; simp [dilutionSpecGo]
  | cons r rest ih =>
    intro so_far val
    simp only [dilutionSpecGo, List.map_cons, List.sum_cons]
    rw [ih]
    ring

/-- Claim C9: `calculate_dilution` processes the simulated rounds exactly
as the claim's recurrence states — each round's price per share is the
floor of the pre-money valuation over the shares outstanding so far with a
minimum of one unit (and one unit when no shares are outstanding), the new
shares are the floor of the amount raised over that price, the share count
accumulates and the valuation becomes the round's post-money — and the
result's `shares_after` equals `shares_before` plus the sum of all rounds'
new shares. -/
theorem c9_dilution_rounds (current_holders : List CurrentHolder)
    (current_valuation : ℤ) (simulated_rounds : List SimulatedRound)
    (hne : current_holders ≠ []) :
    (calculate_dilution current_holders current_valuation simulated_rounds).shares_before
        = ((current_holders.map (·.shares)).sum)
    ∧ (calculate_dilution current_holders current_valuation simulated_rounds).new_investors.map
          (fun i => (i.price_per_share, i.shares_received))
        = (dilutionSpecGo ((current_holders.map (·.shares)).sum) current_valuation
            simulated_rounds).2.2
    ∧ (calculate_dilution current_holders current_valuation simulated_rounds).shares_after
        = (dilutionSpecGo ((current_holders.map (·.shares)).sum) current_valuation
            simulated_rounds).1
    ∧ (calculate_dilution current_holders current_valuation simulated_rounds).valuation_after
        = (dilutionSpecGo ((current_holders.map (·.shares)).sum) current_valuation
            simulated_rounds).2.1
    ∧ (calculate_dilution current_holders current_valuation simulated_rounds).new_investors.map
          (·.round_name) = simulated_rounds.map (·.name)
    ∧ (calculate_dilution current_holders current_valuation simulated_rounds).new_investors.map
          (·.amount_invested) = simulated_rounds.map (·.amount_raised)
    ∧ (calculate_dilution current_holders current_valuation simulated_rounds).shares_after
        = (calculate_dilution current_holders current_valuation simulated_rounds).shares_before
          + ((calculate_dilution current_holders current_valuation
              simulated_rounds).new_investors.map (·.shares_received)).sum := by
  have hf := dilution_fold_spec simulated_rounds ((current_holders.map (·.shares)).sum)
    current_valuation []
  simp only [List.map_nil, List.nil_append] at hf
  have hr : calculate_dilution current_holders current_valuation simulated_rounds
      = { rounds := simulated_rounds,
          shares_before := (current_holders.map (·.shares)).sum,
          valuation_before := current_valuation,
          price_per_share_before :=
            if 0 < (current_holders.map (·.shares)).sum
            then Int.fdiv current_valuation ((current_holders.map (·.shares)).sum) else 0,
          shares_after := (simulated_rounds.foldl dilutionStep
            ((current_holders.map (·.shares)).sum, current_valuation, [])).1,
          valuation_after := (simulated_rounds.foldl dilutionStep
            ((current_holders.map (·.shares)).sum, current_valuation, [])).2.1,
          price_per_share_after :=
            if 0 < (simulated_rounds.foldl dilutionStep
                ((current_holders.map (·.shares)).sum, current_valuation, [])).1
            then Int.fdiv (simulated_rounds.foldl dilutionStep
                ((current_holders.map (·.shares)).sum, current_valuation, [])).2.1
              ((simulated_rounds.foldl dilutionStep
                ((current_holders.map (·.shares)).sum, current_valuation, [])).1)
            else 0,
          existing_holders := current_holders.map (fun h =>
            { wallet := h.wallet, shares_before := h.shares, shares_after := h.shares,
              value_before := h.shares *
                (if 0 < (current_holders.map (·.shares)).sum
                 then Int.fdiv current_valuation ((current_holders.map (·.shares)).sum) else 0),
              value_after := h.shares *
                (if 0 < (simulated_rounds.foldl dilutionStep
                     ((current_holders.map (·.shares)).sum, current_valuation, [])).1
                 then Int.fdiv (simulated_rounds.foldl dilutionStep
                     ((current_holders.map (·.shares)).sum, current_valuation, [])).2.1
                   ((simulated_rounds.foldl dilutionStep
                     ((current_holders.map (·.shares)).sum, current_valuation, [])).1)
                 else 0) }),
          new_investors := (simulated_rounds.foldl dilutionStep
            ((current_holders.map (·.shares)).sum, current_valuation, [])).2.2 } := by
    simp only [calculate_dilution, if_neg hne]
  rw [hr]
  refine ⟨rfl, hf.2.2.1, hf.1, hf.2.1, hf.2.2.2.1, hf.2.2.2.2, ?_⟩
  rw [hf.1, dilutionSpecGo_sum]
  congr 1
  rw [← hf.2.2.1, List.map_map]
  rfl

/-- Claim C9 witness: the dilution theorem at a concrete holder and one
simulated round (price 2000, 250 new shares). -/
theorem c9_witness :
    ([exHolder] : List CurrentHolder) ≠ []
    ∧ (calculate_dilution [exHolder] 1000000 [exRound]).shares_after
        = (calculate_dilution [exHolder] 1000000 [exRound]).shares_before
          + ((calculate_dilution [exHolder] 1000000
              [exRound]).new_investors.map (·.shares_received)).sum :=
  ⟨by decide, (c9_dilution_rounds [exHolder] 1000000 [exRound] (by decide)).2.2.2.2.2.2⟩

/-! # Transfer frame conditions (C10) -/

/-- Claim C10: a transfer whose wallet, destination and amount are all
present and non-zero changes only the two balance entries — the sender's
balance drops by the amount and the receiver's rises by it (when the two
wallets differ; a self-transfer leaves every balance value unchanged), and
every other wallet's balance, the positions, the approved set, the vesting
schedules, the pause flag, the total supply and the slot are untouched.
In particular position records never move on transfer, so a wallet's
balance can diverge from the sum of its positions' shares. -/
theorem c10_transfer_frame (s : TokenState) (tx : UnifiedTransaction)
    (ht : tx.tx_type = .TRANSFER) (hw : strTruthy tx.wallet)
    (hwt : strTruthy tx.wallet_to) (ha : intTruthy tx.amount) :
    (_apply_transaction s tx).positions = s.positions
    ∧ (_apply_transaction s tx).approved_wallets = s.approved_wallets
    ∧ (_apply_transaction s tx).vesting_schedules = s.vesting_schedules
    ∧ (_apply_transaction s tx).is_paused = s.is_paused
    ∧ (_apply_transaction s tx).total_supply = s.total_supply
    ∧ (_apply_transaction s tx).slot = s.slot
    ∧ (∀ x : String, x ≠ tx.wallet.getD "" → x ≠ tx.wallet_to.getD "" →
        dget (_apply_transaction s tx).balances x 0 = dget s.balances x 0)
    ∧ (tx.wallet.getD "" ≠ tx.wallet_to.getD "" →
        dget (_apply_transaction s tx).balances (tx.wallet.getD "") 0
            = dget s.balances (tx.wallet.getD "") 0 - tx.amount.getD 0
        ∧ dget (_apply_transaction s tx).balances (tx.wallet_to.getD "") 0
            = dget s.balances (tx.wallet_to.getD "") 0 + tx.amount.getD 0)
    ∧ (tx.wallet.getD "" = tx.wallet_to.getD "" →
        ∀ x : String, dget (_apply_transaction s tx).balances x 0 = dget s.balances x 0) := by
  have happ : _apply_transaction s tx
      = { s with balances := dset (dset s.balances (tx.wallet.getD "") (dget s.balances (tx.wallet.getD "") 0 - tx.amount.getD 0)) (tx.wallet_to.getD "") (dget (dset s.balances (tx.wallet.getD "") (dget s.balances (tx.wallet.getD "") 0 - tx.amount.getD 0)) (tx.wallet_to.getD "") 0 + tx.amount.getD 0) } := by
    simp only [_apply_transaction, ht, if_pos (And.intro hw (And.intro hwt ha))]
  rw [happ]
  refine ⟨rfl, rfl, rfl, rfl, rfl, rfl, ?_, ?_, ?_⟩
  · intro x hxw hxwt
    simp only
    rw [dget_dset_ne _ _ _ _ _ (fun hc => hxwt hc.symm),
      dget_dset_ne _ _ _ _ _ (fun hc => hxw hc.symm)]
  · intro hne
    constructor
    · simp only
      rw [dget_dset_ne _ _ _ _ _ (fun hc => hne hc.symm), dget_dset_self]
    · simp only
      rw [dget_dset_self, dget_dset_ne _ _ _ _ _ hne]
  · intro heq x
    simp only
    by_cases hx : tx.wallet_to.getD "" = x
    · subst hx
      rw [dget_dset_self, ← heq, dget_dset_self]
      omega
    · rw [dget_dset_ne _ _ _ _ _ hx, dget_dset_ne _ _ _ _ _ (heq ▸ hx)]

/-- Claim C10 witness: the transfer frame theorem at a concrete state,
plus the concrete divergence the claim mentions: after the transfer the
sender's balance (200) no longer equals its single position's shares
(500), because positions do not move. -/
theorem c10_witness :
    exTransferTx.tx_type = TransactionType.TRANSFER
    ∧ strTruthy exTransferTx.wallet ∧ strTruthy exTransferTx.wallet_to
    ∧ intTruthy exTransferTx.amount
    ∧ (_apply_transaction c10State exTransferTx).positions = c10State.positions
    ∧ dget (_apply_transaction c10State exTransferTx).balances "A" 0 = 200
    ∧ (dget (_apply_transaction c10State exTransferTx).balances "A" 0
        ≠ (dget (_apply_transaction c10State exTransferTx).positions ("A", some 1)
            { wallet := "A", share_class_id := 1 }).shares) :=
  ⟨by decide, by decide, by decide, by decide,
    (c10_transfer_frame c10State exTransferTx (by decide) (by decide) (by decide)
      (by decide)).1,
    by decide, by decide⟩
